import Mathlib

/-!
A shallow embedding of the AssetBundle codec (encoder `encodeAssetBundle`,
streaming decoder `decodeAssetBundleStream`, and the non-streaming wrapper
`decodeAssetBundle`).

Conventions of the embedding:
* JS byte buffers are `List Nat` with entries below 256; machine arithmetic
  (`Uint16Array` / `Uint32Array` length fields) is explicit `% 2 ^ w`.
* JS strings are represented by their UTF-8 byte sequences (`List Nat`);
  `TextEncoder.encode` / `TextDecoder.decode` are the identity on this
  representation.
* The asynchronous generator is modelled as a function from the list of
  delivery chunks to the list of yielded entries plus the terminal status
  (`none` = clean end of sequence, `some e` = the raised error).
* `crypto.subtle.digest("sha-1", ·)` is modelled by a concrete executable
  SHA-1 implementation (`sha1`).
-/

namespace AssetBundle

/-- A JS byte buffer: a list of byte values. -/
abbrev Bytes := List Nat

/-- The 7 magic bytes "BUNDLE1" (constant `HEAD` in the source). -/
def HEAD : Bytes := [0x42, 0x55, 0x4e, 0x44, 0x4c, 0x45, 0x31]

/-- The two bytes stored by `new Uint16Array([n])`: `n % 2^16` little-endian. -/
def u16le (n : Nat) : Bytes := [n % 256, n / 256 % 256]

/-- The four bytes stored by `new Uint32Array([n])`: `n % 2^32` little-endian. -/
def u32le (n : Nat) : Bytes :=
  [n % 256, n / 256 % 256, n / 65536 % 256, n / 16777216 % 256]

/-- The value read by `new Uint16Array(buf)[0]` from a 2-byte buffer. -/
def u16v (b : Bytes) : Nat := b.getD 0 0 + 256 * b.getD 1 0

/-- The value read by `new Uint32Array(buf)[0]` from a 4-byte buffer. -/
def u32v (b : Bytes) : Nat :=
  b.getD 0 0 + 256 * b.getD 1 0 + 65536 * b.getD 2 0 + 16777216 * b.getD 3 0

/-- UTF-8 bytes of the default media type "application/octet-stream". -/
def octetStream : Bytes :=
  [97, 112, 112, 108, 105, 99, 97, 116, 105, 111, 110, 47,
   111, 99, 116, 101, 116, 45, 115, 116, 114, 101, 97, 109]

/-- UTF-8 bytes of the text "[object ArrayBuffer]", the string a JS
`ArrayBuffer` coerces to when `TextEncoder.encode` receives it. -/
def objectArrayBufferText : Bytes :=
  [91, 111, 98, 106, 101, 99, 116, 32, 65, 114, 114, 97, 121,
   66, 117, 102, 102, 101, 114, 93]

/-- The File API normalization a `new Blob([...], { type })` applies to its
type: if every code unit is printable ASCII (0x20-0x7E) the type is kept with
ASCII uppercase letters lowercased, otherwise the type becomes empty. -/
def normalizeBlobType (t : Bytes) : Bytes :=
  if t.all fun b => 32 ≤ b && b ≤ 126 then
    t.map fun b => if 65 ≤ b ∧ b ≤ 90 then b + 32 else b
  else []

/-! ### SHA-1 (`crypto.subtle.digest("sha-1", ·)`) -/

/-- 32-bit left rotation. -/
def rotl (n x : Nat) : Nat := ((x <<< n) ||| (x >>> (32 - n))) % 4294967296

/-- Big-endian bytes of one 32-bit word. -/
def be32of (w : Nat) : Bytes := [w / 16777216 % 256, w / 65536 % 256, w / 256 % 256, w % 256]

/-- Big-endian bytes of one 64-bit word. -/
def be64of (w : Nat) : Bytes :=
  [w / 72057594037927936 % 256, w / 281474976710656 % 256,
   w / 1099511627776 % 256, w / 4294967296 % 256,
   w / 16777216 % 256, w / 65536 % 256, w / 256 % 256, w % 256]

/-- One big-endian 32-bit word from four bytes. -/
def word32 (b0 b1 b2 b3 : Nat) : Nat := ((b0 * 256 + b1) * 256 + b2) * 256 + b3

/-- Split a byte list into 64-byte blocks (fuel-driven structural recursion). -/
def chunk64 : Nat → Bytes → List Bytes
  | 0, _ => []
  | _, [] => []
  | f + 1, bs => bs.take 64 :: chunk64 f (bs.drop 64)

/-- Big-endian 32-bit words of a 64-byte block. -/
def wordsOf : Bytes → List Nat
  | b0 :: b1 :: b2 :: b3 :: rest => word32 b0 b1 b2 b3 :: wordsOf rest
  | _ => []

/-- Message-schedule extension; `acc` holds the words produced so far in
reverse order, so `w[i-3]`, `w[i-8]`, `w[i-14]`, `w[i-16]` are positions
2, 7, 13, 15. -/
def extendW : Nat → List Nat → List Nat
  | 0, acc => acc
  | f + 1, acc =>
    extendW f
      (rotl 1 (acc.getD 2 0 ^^^ acc.getD 7 0 ^^^ acc.getD 13 0 ^^^ acc.getD 15 0) :: acc)

/-- Round constants. -/
def sha1K (i : Nat) : Nat :=
  if i < 20 then 1518500249
  else if i < 40 then 1859775393
  else if i < 60 then 2400959708
  else 3395469782

/-- Round mixing functions. -/
def sha1Mix (i b c d : Nat) : Nat :=
  if i < 20 then (b &&& c) ||| ((b ^^^ 4294967295) &&& d)
  else if i < 40 then b ^^^ c ^^^ d
  else if i < 60 then (b &&& c) ||| (b &&& d) ||| (c &&& d)
  else b ^^^ c ^^^ d

/-- SHA-1 working state. -/
structure Sha1St where
  a : Nat
  b : Nat
  c : Nat
  d : Nat
  e : Nat
deriving DecidableEq, Repr

/-- The 80 compression rounds. -/
def sha1Rounds : Nat → List Nat → Sha1St → Sha1St
  | _, [], st => st
  | i, w :: ws, st =>
    let t := (rotl 5 st.a + sha1Mix i st.b st.c st.d + st.e + sha1K i + w) % 4294967296
    sha1Rounds (i + 1) ws ⟨t, st.a, rotl 30 st.b, st.c, st.d⟩

/-- Process one 64-byte block. -/
def sha1Block (h : Sha1St) (block : Bytes) : Sha1St :=
  let w := (extendW 64 (wordsOf block).reverse).reverse
  let st := sha1Rounds 0 w h
  ⟨(h.a + st.a) % 4294967296, (h.b + st.b) % 4294967296, (h.c + st.c) % 4294967296,
   (h.d + st.d) % 4294967296, (h.e + st.e) % 4294967296⟩

/-- Initial SHA-1 state. -/
def sha1Init : Sha1St := ⟨1732584193, 4023233417, 2562383102, 271733878, 3285377520⟩

/-- SHA-1 padding: 0x80, zeros to 56 mod 64, then the 64-bit big-endian
bit length. -/
def sha1Pad (msg : Bytes) : Bytes :=
  msg ++ 128 :: List.replicate ((119 - msg.length % 64) % 64) 0 ++ be64of (8 * msg.length)

/-- The 20-byte SHA-1 digest of a byte list. -/
def sha1 (msg : Bytes) : Bytes :=
  let p := sha1Pad msg
  let h := (chunk64 p.length p).foldl sha1Block sha1Init
  be32of h.a ++ be32of h.b ++ be32of h.c ++ be32of h.d ++ be32of h.e

/-! ### Encoder (`encodeAssetBundle`) -/

/-- The accepted shapes of `AssetBundleInput.data` (a tagged variant of the
duck-typed JS value):
* `str s` — a string (its UTF-8 bytes);
* `u8 buffer off len` — a `Uint8Array` view: its underlying `ArrayBuffer`
  holds `buffer`, the view starts at byte `off` and is `len` bytes long
  (`off + len ≤ buffer.length`);
* `arrayBuf b` — an `ArrayBuffer` holding `b`;
* `blob b` — a Blob-like object whose `arrayBuffer()` materializes to `b`;
* `unsupported` — any other value. -/
inductive AssetData where
  | str (s : Bytes)
  | u8 (buffer : Bytes) (off len : Nat)
  | arrayBuf (b : Bytes)
  | blob (b : Bytes)
  | unsupported
deriving DecidableEq, Repr

/-- One element of the encoder's input list (`AssetBundleInput`): `name` and
the optional `type` are strings represented by their UTF-8 bytes. -/
structure AssetInput where
  name : Bytes
  type : Option Bytes
  data : AssetData
deriving DecidableEq, Repr

/-- Encoder errors. `duplicateName` is the `Duplicate filename: ...` throw,
`unsupportedPayload` the `Could not convert ... to an ArrayBuffer.` throw,
`badHashLength` the `Hash is not 20 bytes long` throw. -/
inductive EncodeError where
  | duplicateName (nm : Bytes)
  | unsupportedPayload (nm : Bytes)
  | badHashLength
deriving DecidableEq, Repr

/-- Per-entry payload/type resolution, translating
`typeof data === "string" ? new TextEncoder().encode(data).buffer
 : data.buffer ?? (data.arrayBuffer ? (type ??= await data.arrayBuffer()) : data)`
followed by the `buffer instanceof ArrayBuffer` guard and the later
`new TextEncoder().encode(type)`.  Returns `(payload bytes, type bytes)`.
* a string: its UTF-8 bytes; the type is encoded as given (`undefined`
  encodes to the empty string);
* a `Uint8Array` view: `data.buffer` is the whole underlying buffer — the
  view's offset and length are ignored;
* a Blob-like value with `type` not supplied: `type ??=` assigns the
  materialized `ArrayBuffer` to `type`, so the payload is the materialized
  bytes and `TextEncoder.encode(type)` later coerces the `ArrayBuffer` to
  the text "[object ArrayBuffer]";
* a Blob-like value with `type` supplied: `type ??=` keeps the string, the
  "buffer" is that string, the `instanceof ArrayBuffer` guard fails and the
  encoder throws;
* an `ArrayBuffer`: its bytes;
* anything else: the `instanceof` guard fails. -/
def resolveEntry (nm : Bytes) (ty : Option Bytes) :
    AssetData → Except EncodeError (Bytes × Bytes)
  | .str s => .ok (s, ty.getD [])
  | .u8 buffer _ _ => .ok (buffer, ty.getD [])
  | .arrayBuf b => .ok (b, ty.getD [])
  | .blob b =>
    match ty with
    | none => .ok (b, objectArrayBufferText)
    | some _ => .error (.unsupportedPayload nm)
  | .unsupported => .error (.unsupportedPayload nm)

/-- A fully resolved entry as laid out in the archive; `digest` is the 20
bytes written after the payload. -/
structure RawEntry where
  name : Bytes
  typeb : Bytes
  payload : Bytes
  digest : Bytes
deriving DecidableEq, Repr

/-- The byte layout of one entry record:
2-byte name length, name, 2-byte type length, type, 4-byte payload length,
payload, 20-byte digest. -/
def rawBlock (e : RawEntry) : Bytes :=
  u16le e.name.length ++ e.name ++ u16le e.typeb.length ++ e.typeb ++
    u32le e.payload.length ++ e.payload ++ e.digest

/-- Header plus concatenated entry records. -/
def rawArchive (es : List RawEntry) : Bytes := HEAD ++ (es.map rawBlock).flatten

/-- The encoder loop over the input list; `seen` is the `seenFilenames` set.
Each iteration checks the name against `seen`, resolves the payload, hashes
it (aborting if the digest is not 20 bytes) and appends the entry record. -/
def encodeGo : List AssetInput → List Bytes → Except EncodeError Bytes
  | [], _ => .ok []
  | f :: fs, seen =>
    if f.name ∈ seen then .error (.duplicateName f.name)
    else
      match resolveEntry f.name f.type f.data with
      | .error e => .error e
      | .ok (p, tb) =>
        if (sha1 p).length ≠ 20 then .error .badHashLength
        else
          match encodeGo fs (f.name :: seen) with
          | .error e => .error e
          | .ok rest => .ok (rawBlock ⟨f.name, tb, p, sha1 p⟩ ++ rest)

/-- `encodeAssetBundle`: the bytes of the returned Blob, or the thrown error. -/
def encodeAssetBundle (files : List AssetInput) : Except EncodeError Bytes :=
  match encodeGo files [] with
  | .error e => .error e
  | .ok body => .ok (HEAD ++ body)

/-! ### Streaming decoder (`decodeAssetBundleStream`) -/

/-- Decoder errors. `unexpectedEof` is the
`Unexpected end of file while reading AssetBundle` throw, `invalidHeader`
the `Invalid AssetBundle header` throw, `hashMismatch` the
`Hash mismatch for ...` throw.  `typeError` models the JS `TypeError`
raised by `chunks[chunk].slice(0, cursor)` when `chunk === chunks.length`
(the chunk at that index does not exist).  `outOfFuel` is an artifact of the
fuel-driven model and is unreachable for the fuel the model supplies. -/
inductive DecodeError where
  | unexpectedEof
  | invalidHeader
  | hashMismatch (nm : Bytes)
  | typeError
  | outOfFuel
deriving DecidableEq, Repr

/-- The decoder's mutable state: the retained `chunks` array, the cursor
(`chunk` index plus byte `cursor` within it), and the chunks the source has
not yet delivered (`reader.read()` pulls from `rest`). -/
structure DecState where
  chunks : List Bytes
  chunk : Nat
  cursor : Nat
  rest : List Bytes
deriving DecidableEq, Repr

/-- One yielded entry: the name, the type of the yielded Blob (after Blob
type normalization), and the payload bytes. -/
structure DecOutput where
  name : Bytes
  type : Bytes
  data : Bytes
deriving DecidableEq, Repr

/-- The observable behaviour of one run of the generator: the entries
yielded, then either a clean end (`none`) or a raised error. -/
structure DecodeResult where
  entries : List DecOutput
  err : Option DecodeError
deriving DecidableEq, Repr

/-- The cursor advance at the end of one `readBytes` loop iteration:
`chunkBytes = chunks[chunk].byteLength - cursor`; if `chunkBytes + bytes > n`
move the cursor inside the current chunk and set `bytes = n`, otherwise
consume the rest of the chunk. -/
def rbAdvance (n : Nat) (st : DecState) (bytes : Nat) : DecState × Nat :=
  let cb := (st.chunks.getD st.chunk []).length - st.cursor
  if cb + bytes > n then
    (⟨st.chunks, st.chunk, st.cursor + (n - bytes), st.rest⟩, n)
  else
    (⟨st.chunks, st.chunk + 1, 0, st.rest⟩, bytes + cb)

/-- The `while (bytes < n)` loop of `readBytes`: pull a chunk from the source
when the buffered chunks are exhausted (end of source mid-read throws), then
advance.  One fuel unit per iteration. -/
def rbLoop : Nat → Nat → DecState → Nat → Except DecodeError DecState
  | 0, _, _, _ => .error .outOfFuel
  | f + 1, n, st, bytes =>
    if n ≤ bytes then .ok st
    else if st.chunks.length ≤ st.chunk then
      match st.rest with
      | [] => .error .unexpectedEof
      | c :: r =>
        let p := rbAdvance n ⟨st.chunks ++ [c], st.chunk, st.cursor, r⟩ bytes
        rbLoop f n p.1 p.2
    else
      let p := rbAdvance n st bytes
      rbLoop f n p.1 p.2

/-- `readBytes(n, ·)`: run the loop, then return the bytes between the start
and end cursor positions, mirroring the three result paths of the source:
entirely inside the start chunk; ending exactly at the end of the start
chunk; otherwise a concatenation.  The first and third paths dereference
`chunks[startChunk]` resp. `chunks[chunk]` and therefore raise a `TypeError`
when that index sits past the last buffered chunk — for the first path this
happens exactly on a zero-byte read issued while the cursor already sits
past the buffered chunks (the loop never runs, so nothing is pulled). -/
def readBytes (n : Nat) (st : DecState) : Except DecodeError (Bytes × DecState) :=
  match rbLoop (st.chunks.length + st.rest.length + 2) n st 0 with
  | .error e => .error e
  | .ok st' =>
    if st.chunk = st'.chunk then
      if st'.chunks.length ≤ st.chunk then .error .typeError
      else
        .ok (((st'.chunks.getD st.chunk []).drop st.cursor).take (st'.cursor - st.cursor), st')
    else if st.chunk + 1 = st'.chunk ∧ st'.cursor = 0 then
      .ok ((st'.chunks.getD st.chunk []).drop st.cursor, st')
    else if st'.chunks.length ≤ st'.chunk then .error .typeError
    else
      .ok ((st'.chunks.getD st.chunk []).drop st.cursor
            ++ ((st'.chunks.drop (st.chunk + 1)).take (st'.chunk - (st.chunk + 1))).flatten
            ++ (st'.chunks.getD st'.chunk []).take st'.cursor, st')

/-- `maybeReadMore`: if the cursor sits exactly past the buffered chunks,
pull once; end of source ends the generator cleanly (`false`); otherwise the
pulled chunk is appended and — as in the source — `chunk++` moves the cursor
past it. -/
def maybeReadMore (st : DecState) : DecState × Bool :=
  if st.cursor = 0 ∧ st.chunks.length ≤ st.chunk then
    match st.rest with
    | [] => (st, false)
    | c :: r => (⟨st.chunks ++ [c], st.chunk + 1, 0, r⟩, true)
  else (st, true)

/-- The `while (running)` entry loop: read the 2-byte name length, the name,
the 2-byte type length, the type (substituting the default media type when
the length is 0), the 4-byte payload length, the payload (yielded as a Blob
tagged with the resolved type), and the 20-byte digest; when `verify`,
recompute SHA-1 over the payload and compare with the stored digest; yield
and call `maybeReadMore`.  One fuel unit per entry. -/
def decodeLoop (verify : Bool) : Nat → DecState → Bool → DecodeResult
  | _, _, false => ⟨[], none⟩
  | 0, _, true => ⟨[], some .outOfFuel⟩
  | fuel + 1, st0, true =>
    match readBytes 2 st0 with
    | .error e => ⟨[], some e⟩
    | .ok (nl, st1) =>
      match readBytes (u16v nl) st1 with
      | .error e => ⟨[], some e⟩
      | .ok (nm, st2) =>
        match readBytes 2 st2 with
        | .error e => ⟨[], some e⟩
        | .ok (tl, st3) =>
          match (if u16v tl = 0 then .ok (octetStream, st3) else readBytes (u16v tl) st3 :
              Except DecodeError (Bytes × DecState)) with
          | .error e => ⟨[], some e⟩
          | .ok (ty, st4) =>
            match readBytes 4 st4 with
            | .error e => ⟨[], some e⟩
            | .ok (szb, st5) =>
              match readBytes (u32v szb) st5 with
              | .error e => ⟨[], some e⟩
              | .ok (pl, st6) =>
                match readBytes 20 st6 with
                | .error e => ⟨[], some e⟩
                | .ok (dg, st7) =>
                  if verify = true ∧ dg ≠ sha1 pl then ⟨[], some (.hashMismatch nm)⟩
                  else
                    let mm := maybeReadMore st7
                    let r := decodeLoop verify fuel mm.1 mm.2
                    ⟨⟨nm, normalizeBlobType ty, pl⟩ :: r.entries, r.err⟩

/-- Total number of bytes the source will deliver. -/
def totalLen (cs : List Bytes) : Nat := (cs.map List.length).sum

/-- `decodeAssetBundleStream` on a source delivering the chunks `cs` in
order: the first `reader.read()` on an exhausted source throws; then the
7-byte header is read and compared with the magic; then the entry loop runs.
The fuel (one unit per entry) is the total byte count plus one; each entry
record occupies at least 28 bytes, so the loop can never exhaust it. -/
def decodeChunks (cs : List Bytes) (verify : Bool) : DecodeResult :=
  match cs with
  | [] => ⟨[], some .unexpectedEof⟩
  | c :: rest =>
    match readBytes 7 ⟨[c], 0, 0, rest⟩ with
    | .error e => ⟨[], some e⟩
    | .ok (hd, st) =>
      if hd = HEAD then decodeLoop verify (totalLen (c :: rest) + 1) st true
      else ⟨[], some .invalidHeader⟩

/-! ### Non-streaming wrapper (`decodeAssetBundle`) -/

/-- JS `Map.set`: overwrite in place when the key exists, append otherwise. -/
def mapSet (m : List (Bytes × Bytes)) (k v : Bytes) : List (Bytes × Bytes) :=
  if m.any fun p => p.1 = k then
    m.map fun p => if p.1 = k then (k, v) else p
  else m ++ [(k, v)]

/-- `decodeAssetBundle`: drain the streaming decoder — with no options, so
`verify` takes its default `true` — into a name-keyed map; any raised error
propagates out. -/
def decodeAssetBundleMap (cs : List Bytes) : Except DecodeError (List (Bytes × Bytes)) :=
  let r := decodeChunks cs true
  match r.err with
  | some e => .error e
  | none => .ok (r.entries.foldl (fun m o => mapSet m o.name o.data) [])

/-! ### Statement-level helpers -/

/-- The payload bytes the encoder actually stores for each accepted shape
(the whole underlying buffer for a `Uint8Array` view). -/
def storedPayload : AssetData → Bytes
  | .str s => s
  | .u8 buffer _ _ => buffer
  | .arrayBuf b => b
  | .blob b => b
  | .unsupported => []

/-- Modelled from the spec: "the bytes of that view (not more, not fewer)" —
the bytes a caller supplies, reading a `Uint8Array` input as the bytes the
view exposes.  Used to compare the claimed payload with `storedPayload`. -/
def suppliedViewBytes : AssetData → Bytes
  | .str s => s
  | .u8 buffer off len => (buffer.drop off).take len
  | .arrayBuf b => b
  | .blob b => b
  | .unsupported => []

/-- The type bytes the encoder stores for an accepted entry. -/
def storedTypeBytes (f : AssetInput) : Bytes :=
  match f.data, f.type with
  | .blob _, none => objectArrayBufferText
  | _, t => t.getD []

/-- The resolved entry record an accepted input produces. -/
def toRaw (f : AssetInput) : RawEntry :=
  ⟨f.name, storedTypeBytes f, storedPayload f.data, sha1 (storedPayload f.data)⟩

/-- Whether `resolveEntry` succeeds on this input. -/
def entryResolves (f : AssetInput) : Bool :=
  match f.data, f.type with
  | .unsupported, _ => false
  | .blob _, some _ => false
  | _, _ => true

/-- Payload shapes that supply plain bytes: a string, an `ArrayBuffer`, or a
`Uint8Array` view covering its whole buffer. -/
def plainData : AssetData → Bool
  | .str _ => true
  | .arrayBuf _ => true
  | .u8 buffer off len => off = 0 && len = buffer.length
  | _ => false

/-- Size bounds of one entry record's variable fields: the 16-bit length
fields hold the name and type byte lengths exactly and the 32-bit length
field holds the payload byte length exactly; the digest is 20 bytes. -/
def rawBounds (e : RawEntry) : Prop :=
  e.name.length < 65536 ∧ e.typeb.length < 65536 ∧
    e.payload.length < 4294967296 ∧ e.digest.length = 20

instance (e : RawEntry) : Decidable (rawBounds e) := by
  unfold rawBounds; infer_instance

/-- The entry the decoder yields for the record `e`. -/
def rawOut (e : RawEntry) : DecOutput :=
  ⟨e.name, normalizeBlobType (if e.typeb = [] then octetStream else e.typeb), e.payload⟩

/-- Decoder state while parsing inside the single chunk `c` at byte `p`. -/
def oneChunk (c : Bytes) (p : Nat) : DecState := ⟨[c], 0, p, []⟩

/-- Decoder state after consuming the single chunk `c` exactly. -/
def endChunk (c : Bytes) : DecState := ⟨[c], 1, 0, []⟩

instance {ε α : Type} [DecidableEq ε] [DecidableEq α] : DecidableEq (Except ε α) := fun x y =>
  match x, y with
  | .error a, .error b =>
    if h : a = b then isTrue (by rw [h]) else isFalse (by intro hc; cases hc; exact h rfl)
  | .error _, .ok _ => isFalse (by intro hc; cases hc)
  | .ok _, .error _ => isFalse (by intro hc; cases hc)
  | .ok a, .ok b =>
    if h : a = b then isTrue (by rw [h]) else isFalse (by intro hc; cases hc; exact h rfl)

end AssetBundle
namespace AssetBundle

/-! ## Basic facts -/

theorem u16le_length (n : Nat) : (u16le n).length = 2 := rfl

theorem u32le_length (n : Nat) : (u32le n).length = 4 := rfl

theorem u16v_u16le (n : Nat) (h : n < 65536) : u16v (u16le n) = n := by
  have he : u16v (u16le n) = n % 256 + 256 * (n / 256 % 256) := rfl
  rw [he]; omega

theorem u32v_u32le (n : Nat) (h : n < 4294967296) : u32v (u32le n) = n := by
  have he : u32v (u32le n) =
      n % 256 + 256 * (n / 256 % 256) + 65536 * (n / 65536 % 256) +
        16777216 * (n / 16777216 % 256) := rfl
  rw [he]; omega

theorem u16le_mod (n : Nat) : u16le (n % 65536) = u16le n := by
  simp only [u16le, List.cons.injEq, and_true]
  omega

theorem sha1_length (m : Bytes) : (sha1 m).length = 20 := by
  simp [sha1, be32of]

theorem rawBlock_length (e : RawEntry) :
    (rawBlock e).length =
      8 + e.name.length + e.typeb.length + e.payload.length + e.digest.length := by
  simp [rawBlock, u16le, u32le]; omega

theorem drop_exact (a r : Bytes) (k : Nat) (h : a.length = k) : (a ++ r).drop k = r := by
  subst h; exact List.drop_left a r

theorem take_exact (a r : Bytes) (k : Nat) (h : a.length = k) : (a ++ r).take k = a := by
  subst h; exact List.take_left a r

theorem drop_offset (pre mid suf : Bytes) (k : Nat) (hk : k ≤ mid.length) :
    (pre ++ mid ++ suf).drop (pre.length + k) = mid.drop k ++ suf := by
  rw [List.append_assoc, List.drop_append]
  conv_lhs => rw [← List.take_append_drop k mid]
  rw [List.append_assoc]
  rw [drop_exact _ _ k (by simp [List.length_take]; omega)]

theorem slice_at (pre mid suf : Bytes) (k m : Nat) (hkm : k + m ≤ mid.length) :
    ((pre ++ mid ++ suf).drop (pre.length + k)).take m = (mid.drop k).take m := by
  rw [drop_offset pre mid suf k (by omega),
    List.take_append_of_le_length (by simp [List.length_drop]; omega)]

/-! ## Stepping lemmas for `readBytes` on a single-chunk source -/

theorem readBytes_zero (c : Bytes) (p : Nat) :
    readBytes 0 (oneChunk c p) = .ok ([], oneChunk c p) := by
  simp [readBytes, rbLoop, oneChunk]

theorem readBytes_zero_end (c : Bytes) :
    readBytes 0 (endChunk c) = .error .typeError := by
  simp [readBytes, rbLoop, endChunk]

theorem readBytes_one_mid (c : Bytes) (p n : Nat) (h0 : 0 < n) (h : p + n < c.length) :
    readBytes n (oneChunk c p) = .ok ((c.drop p).take n, oneChunk c (p + n)) := by
  have h1 : ¬ n ≤ 0 := by omega
  have h2 : n < c.length - p := by omega
  simp [readBytes, rbLoop, rbAdvance, oneChunk, h1, h2]

theorem readBytes_one_edge (c : Bytes) (p n : Nat) (h0 : 0 < n) (h : p + n = c.length) :
    readBytes n (oneChunk c p) = .ok (c.drop p, endChunk c) := by
  have h1 : ¬ n ≤ 0 := by omega
  have h2 : ¬ n < c.length - p := by omega
  have h3 : n ≤ c.length - p := by omega
  simp [readBytes, rbLoop, rbAdvance, oneChunk, endChunk, h1, h2, h3]

theorem readBytes_one_eof (c : Bytes) (p n : Nat) (hp : p ≤ c.length) (h : c.length < p + n) :
    readBytes n (oneChunk c p) = .error .unexpectedEof := by
  have h1 : ¬ n ≤ 0 := by omega
  have h2 : ¬ n < c.length - p := by omega
  have h3 : ¬ n ≤ c.length - p := by omega
  simp [readBytes, rbLoop, rbAdvance, oneChunk, h1, h2, h3]

theorem readBytes_end_eof (c : Bytes) (n : Nat) (h0 : 0 < n) :
    readBytes n (endChunk c) = .error .unexpectedEof := by
  have h1 : ¬ n ≤ 0 := by omega
  simp [readBytes, rbLoop, endChunk, h1]

theorem maybeReadMore_mid (st : DecState) (h : st.cursor ≠ 0) : maybeReadMore st = (st, true) := by
  simp [maybeReadMore, h]

theorem maybeReadMore_end (c : Bytes) : maybeReadMore (endChunk c) = (endChunk c, false) := by
  simp [maybeReadMore, endChunk]

end AssetBundle
namespace AssetBundle

/-! ## Field slices of one entry record -/

theorem rawBlock_assoc (e : RawEntry) :
    rawBlock e = u16le e.name.length ++ (e.name ++ (u16le e.typeb.length ++ (e.typeb ++
      (u32le e.payload.length ++ (e.payload ++ e.digest))))) := by
  simp [rawBlock, List.append_assoc]

theorem rawBlock_take2 (e : RawEntry) : (rawBlock e).take 2 = u16le e.name.length := by
  rw [rawBlock_assoc]; exact take_exact _ _ 2 (u16le_length _)

theorem rawBlock_drop2 (e : RawEntry) :
    (rawBlock e).drop 2 = e.name ++ (u16le e.typeb.length ++ (e.typeb ++
      (u32le e.payload.length ++ (e.payload ++ e.digest)))) := by
  rw [rawBlock_assoc]; exact drop_exact _ _ 2 (u16le_length _)

theorem rawBlock_name (e : RawEntry) :
    ((rawBlock e).drop 2).take e.name.length = e.name := by
  rw [rawBlock_drop2]; exact take_exact _ _ _ rfl

theorem rawBlock_dropName (e : RawEntry) :
    (rawBlock e).drop (2 + e.name.length) = u16le e.typeb.length ++ (e.typeb ++
      (u32le e.payload.length ++ (e.payload ++ e.digest))) := by
  rw [← List.drop_drop, rawBlock_drop2]; exact drop_exact _ _ _ rfl

theorem rawBlock_tl (e : RawEntry) :
    ((rawBlock e).drop (2 + e.name.length)).take 2 = u16le e.typeb.length := by
  rw [rawBlock_dropName]; exact take_exact _ _ 2 (u16le_length _)

theorem rawBlock_dropTl (e : RawEntry) :
    (rawBlock e).drop (4 + e.name.length) = e.typeb ++
      (u32le e.payload.length ++ (e.payload ++ e.digest)) := by
  have h4 : 4 + e.name.length = 2 + e.name.length + 2 := by omega
  rw [h4, ← List.drop_drop, rawBlock_dropName]; exact drop_exact _ _ 2 (u16le_length _)

theorem rawBlock_type (e : RawEntry) :
    ((rawBlock e).drop (4 + e.name.length)).take e.typeb.length = e.typeb := by
  rw [rawBlock_dropTl]; exact take_exact _ _ _ rfl

theorem rawBlock_dropType (e : RawEntry) :
    (rawBlock e).drop (4 + e.name.length + e.typeb.length) =
      u32le e.payload.length ++ (e.payload ++ e.digest) := by
  rw [← List.drop_drop, rawBlock_dropTl]; exact drop_exact _ _ _ rfl

theorem rawBlock_sz (e : RawEntry) :
    ((rawBlock e).drop (4 + e.name.length + e.typeb.length)).take 4 = u32le e.payload.length := by
  rw [rawBlock_dropType]; exact take_exact _ _ 4 (u32le_length _)

theorem rawBlock_dropSz (e : RawEntry) :
    (rawBlock e).drop (8 + e.name.length + e.typeb.length) = e.payload ++ e.digest := by
  have h8 : 8 + e.name.length + e.typeb.length = 4 + e.name.length + e.typeb.length + 4 := by omega
  rw [h8, ← List.drop_drop, rawBlock_dropType]; exact drop_exact _ _ 4 (u32le_length _)

theorem rawBlock_pl (e : RawEntry) :
    ((rawBlock e).drop (8 + e.name.length + e.typeb.length)).take e.payload.length = e.payload := by
  rw [rawBlock_dropSz]; exact take_exact _ _ _ rfl

theorem rawBlock_dg (e : RawEntry) :
    (rawBlock e).drop (8 + e.name.length + e.typeb.length + e.payload.length) = e.digest := by
  rw [← List.drop_drop, rawBlock_dropSz]; exact drop_exact _ _ _ rfl

theorem rawBlock_ne_nil (e : RawEntry) : rawBlock e ≠ [] := by
  intro h
  have := rawBlock_length e
  rw [h] at this
  simp at this
  omega

theorem flatten_blocks_ne_nil (es : List RawEntry) (h : es ≠ []) :
    ((es.map rawBlock).flatten : Bytes) ≠ [] := by
  cases es with
  | nil => exact absurd rfl h
  | cons e es' =>
    simp only [List.map_cons, List.flatten_cons]
    intro hc
    rcases List.append_eq_nil.mp hc with ⟨h1, _⟩
    exact rawBlock_ne_nil e h1

theorem blocks_length_ge (es : List RawEntry) :
    es.length ≤ ((es.map rawBlock).flatten : Bytes).length := by
  induction es with
  | nil => simp
  | cons e es' ih =>
    simp only [List.map_cons, List.flatten_cons, List.length_append, List.length_cons]
    have h := rawBlock_length e
    omega

end AssetBundle
namespace AssetBundle

/-! ## Parsing one complete entry record from a single-chunk source -/

theorem decodeLoop_false (v : Bool) (fuel : Nat) (st : DecState) :
    decodeLoop v fuel st false = ⟨[], none⟩ := by
  cases fuel <;> rfl

theorem decodeLoop_block (v : Bool) (fuel : Nat) (pre suf : Bytes) (e : RawEntry)
    (hb : rawBounds e) (hpre : 0 < pre.length) :
    decodeLoop v (fuel + 1) (oneChunk (pre ++ rawBlock e ++ suf) pre.length) true =
      if v = true ∧ e.digest ≠ sha1 e.payload then ⟨[], some (.hashMismatch e.name)⟩
      else if suf = [] then ⟨[rawOut e], none⟩
      else
        ⟨rawOut e ::
            (decodeLoop v fuel (oneChunk (pre ++ rawBlock e ++ suf)
              (pre.length + (rawBlock e).length)) true).entries,
          (decodeLoop v fuel (oneChunk (pre ++ rawBlock e ++ suf)
            (pre.length + (rawBlock e).length)) true).err⟩ := by
  obtain ⟨hnm, htb, hpl, hd⟩ := hb
  have hB := rawBlock_length e
  have hc : (pre ++ rawBlock e ++ suf).length =
      pre.length + (rawBlock e).length + suf.length := by
    rw [List.length_append, List.length_append]
  have hdropP : (pre ++ rawBlock e ++ suf).drop pre.length = rawBlock e ++ suf := by
    rw [List.append_assoc]; exact List.drop_left _ _
  have hv1 : u16v (u16le e.name.length) = e.name.length := u16v_u16le _ hnm
  have hv2 : u16v (u16le e.typeb.length) = e.typeb.length := u16v_u16le _ htb
  have hv3 : u32v (u32le e.payload.length) = e.payload.length := u32v_u32le _ hpl
  have h1 : readBytes 2 (oneChunk (pre ++ rawBlock e ++ suf) pre.length) =
      .ok (u16le e.name.length, oneChunk (pre ++ rawBlock e ++ suf) (pre.length + 2)) := by
    rw [readBytes_one_mid _ _ _ (by omega) (by omega), hdropP,
      List.take_append_of_le_length (by omega), rawBlock_take2]
  have h2 : readBytes e.name.length
        (oneChunk (pre ++ rawBlock e ++ suf) (pre.length + 2)) =
      .ok (e.name, oneChunk (pre ++ rawBlock e ++ suf) (pre.length + 2 + e.name.length)) := by
    rcases Nat.eq_zero_or_pos e.name.length with h0 | h0
    · rw [h0, readBytes_zero, List.length_eq_zero.mp h0]
    · rw [readBytes_one_mid _ _ _ h0 (by omega),
        slice_at pre _ suf 2 _ (by omega), rawBlock_name]
  have h3 : readBytes 2
        (oneChunk (pre ++ rawBlock e ++ suf) (pre.length + 2 + e.name.length)) =
      .ok (u16le e.typeb.length,
        oneChunk (pre ++ rawBlock e ++ suf) (pre.length + 2 + e.name.length + 2)) := by
    have hk : pre.length + 2 + e.name.length = pre.length + (2 + e.name.length) := by omega
    rw [readBytes_one_mid _ _ _ (by omega) (by omega), hk,
      slice_at pre _ suf (2 + e.name.length) 2 (by omega), rawBlock_tl]
  have h4 : (if e.typeb.length = 0 then
        (.ok (octetStream,
          oneChunk (pre ++ rawBlock e ++ suf) (pre.length + 2 + e.name.length + 2)) :
          Except DecodeError (Bytes × DecState))
      else readBytes e.typeb.length
        (oneChunk (pre ++ rawBlock e ++ suf) (pre.length + 2 + e.name.length + 2))) =
      .ok (if e.typeb = [] then octetStream else e.typeb,
        oneChunk (pre ++ rawBlock e ++ suf)
          (pre.length + 2 + e.name.length + 2 + e.typeb.length)) := by
    by_cases h0 : e.typeb = []
    · simp [h0]
    · have hlen0 : e.typeb.length ≠ 0 := by simpa using h0
      rw [if_neg hlen0, if_neg h0,
        readBytes_one_mid _ _ _ (Nat.pos_of_ne_zero hlen0) (by omega)]
      have hk : pre.length + 2 + e.name.length + 2 = pre.length + (4 + e.name.length) := by omega
      rw [hk, slice_at pre _ suf (4 + e.name.length) _ (by omega), rawBlock_type]
  have h5 : readBytes 4
        (oneChunk (pre ++ rawBlock e ++ suf)
          (pre.length + 2 + e.name.length + 2 + e.typeb.length)) =
      .ok (u32le e.payload.length,
        oneChunk (pre ++ rawBlock e ++ suf)
          (pre.length + 2 + e.name.length + 2 + e.typeb.length + 4)) := by
    have hk : pre.length + 2 + e.name.length + 2 + e.typeb.length =
        pre.length + (4 + e.name.length + e.typeb.length) := by omega
    rw [readBytes_one_mid _ _ _ (by omega) (by omega), hk,
      slice_at pre _ suf (4 + e.name.length + e.typeb.length) 4 (by omega), rawBlock_sz]
  have h6 : readBytes e.payload.length
        (oneChunk (pre ++ rawBlock e ++ suf)
          (pre.length + 2 + e.name.length + 2 + e.typeb.length + 4)) =
      .ok (e.payload,
        oneChunk (pre ++ rawBlock e ++ suf)
          (pre.length + 2 + e.name.length + 2 + e.typeb.length + 4 + e.payload.length)) := by
    rcases Nat.eq_zero_or_pos e.payload.length with h0 | h0
    · rw [h0, readBytes_zero, List.length_eq_zero.mp h0]
    · have hk : pre.length + 2 + e.name.length + 2 + e.typeb.length + 4 =
          pre.length + (8 + e.name.length + e.typeb.length) := by omega
      rw [readBytes_one_mid _ _ _ h0 (by omega), hk,
        slice_at pre _ suf (8 + e.name.length + e.typeb.length) _ (by omega), rawBlock_pl]
  by_cases hsuf : suf = []
  · have hs0 : suf.length = 0 := by rw [hsuf]; rfl
    have h7 : readBytes 20
          (oneChunk (pre ++ rawBlock e ++ suf)
            (pre.length + 2 + e.name.length + 2 + e.typeb.length + 4 + e.payload.length)) =
        .ok (e.digest, endChunk (pre ++ rawBlock e ++ suf)) := by
      rw [readBytes_one_edge (pre ++ rawBlock e ++ suf)
        (pre.length + 2 + e.name.length + 2 + e.typeb.length + 4 + e.payload.length) 20
        (by omega) (by omega)]
      have hk : pre.length + 2 + e.name.length + 2 + e.typeb.length + 4 + e.payload.length =
          pre.length + (8 + e.name.length + e.typeb.length + e.payload.length) := by omega
      rw [hk, drop_offset pre (rawBlock e) suf
        (8 + e.name.length + e.typeb.length + e.payload.length) (by omega),
        rawBlock_dg, hsuf, List.append_nil]
    simp only [decodeLoop, hv1, hv2, hv3, h1, h2, h3, h4, h5, h6, h7,
      maybeReadMore_end, decodeLoop_false]
    by_cases hvv : v = true ∧ ¬ e.digest = sha1 e.payload
    · simp [hvv]
    · simp [hvv, hsuf, rawOut]
  · have hsl : 0 < suf.length := by
      cases suf with
      | nil => exact absurd rfl hsuf
      | cons a l => simp
    have h7 : readBytes 20
          (oneChunk (pre ++ rawBlock e ++ suf)
            (pre.length + 2 + e.name.length + 2 + e.typeb.length + 4 + e.payload.length)) =
        .ok (e.digest,
          oneChunk (pre ++ rawBlock e ++ suf) (pre.length + (rawBlock e).length)) := by
      rw [readBytes_one_mid (pre ++ rawBlock e ++ suf)
        (pre.length + 2 + e.name.length + 2 + e.typeb.length + 4 + e.payload.length) 20
        (by omega) (by omega)]
      have hk : pre.length + 2 + e.name.length + 2 + e.typeb.length + 4 + e.payload.length =
          pre.length + (8 + e.name.length + e.typeb.length + e.payload.length) := by omega
      have hk2 : pre.length + (8 + e.name.length + e.typeb.length + e.payload.length) + 20 =
          pre.length + (rawBlock e).length := by omega
      rw [hk, hk2, slice_at pre (rawBlock e) suf
        (8 + e.name.length + e.typeb.length + e.payload.length) 20 (by omega)]
      rw [show ((rawBlock e).drop
          (8 + e.name.length + e.typeb.length + e.payload.length)).take 20 = e.digest from by
        rw [rawBlock_dg, ← hd, List.take_length]]
    have hmm : maybeReadMore
          (oneChunk (pre ++ rawBlock e ++ suf) (pre.length + (rawBlock e).length)) =
        (oneChunk (pre ++ rawBlock e ++ suf) (pre.length + (rawBlock e).length), true) :=
      maybeReadMore_mid _ (by show pre.length + (rawBlock e).length ≠ 0; omega)
    simp only [decodeLoop, hv1, hv2, hv3, h1, h2, h3, h4, h5, h6, h7, hmm]
    by_cases hvv : v = true ∧ ¬ e.digest = sha1 e.payload
    · simp [hvv]
    · simp [hvv, hsuf, rawOut]

end AssetBundle
namespace AssetBundle

/-! ## Decoding a whole sequence of entry records -/

theorem decodeLoop_end_eof (v : Bool) (fuel : Nat) (c : Bytes) :
    decodeLoop v (fuel + 1) (endChunk c) true = ⟨[], some .unexpectedEof⟩ := by
  simp only [decodeLoop, readBytes_end_eof c 2 (by omega)]

theorem decodeLoop_entries_ok (v : Bool) (es : List RawEntry) (pre : Bytes) (fuel : Nat)
    (hne : es ≠ []) (hb : ∀ e ∈ es, rawBounds e)
    (hv : v = true → ∀ e ∈ es, e.digest = sha1 e.payload)
    (hpre : 0 < pre.length) (hfuel : es.length ≤ fuel) :
    decodeLoop v fuel (oneChunk (pre ++ (es.map rawBlock).flatten) pre.length) true =
      ⟨es.map rawOut, none⟩ := by
  induction es generalizing pre fuel with
  | nil => exact absurd rfl hne
  | cons e es' ih =>
    obtain ⟨fuel, rfl⟩ : ∃ f, fuel = f + 1 := by
      cases fuel with
      | zero => simp at hfuel
      | succ f => exact ⟨f, rfl⟩
    have hsplit : pre ++ ((e :: es').map rawBlock).flatten =
        pre ++ rawBlock e ++ (es'.map rawBlock).flatten := by
      simp [List.append_assoc]
    rw [hsplit, decodeLoop_block v fuel pre _ e (hb e (by simp)) hpre]
    have hnv : ¬ (v = true ∧ ¬ e.digest = sha1 e.payload) := by
      rintro ⟨hv1, hv2⟩; exact hv2 (hv hv1 e (by simp))
    rw [if_neg hnv]
    by_cases hes : es' = []
    · subst hes
      simp
    · rw [if_neg (flatten_blocks_ne_nil es' hes)]
      have hlen : pre.length + (rawBlock e).length = (pre ++ rawBlock e).length := by simp
      rw [hlen,
        ih (pre ++ rawBlock e) fuel hes (fun x hx => hb x (by simp [hx]))
          (fun hv1 x hx => hv hv1 x (by simp [hx]))
          (by simp; omega) (by simp at hfuel ⊢; omega)]
      simp

theorem decodeLoop_entries_mismatch (es1 : List RawEntry) (bad : RawEntry)
    (es2 : List RawEntry) (pre : Bytes) (fuel : Nat)
    (hb : ∀ e ∈ es1, rawBounds e) (hbb : rawBounds bad)
    (hv : ∀ e ∈ es1, e.digest = sha1 e.payload)
    (hbad : bad.digest ≠ sha1 bad.payload)
    (hpre : 0 < pre.length) (hfuel : es1.length < fuel) :
    decodeLoop true fuel
        (oneChunk (pre ++ ((es1 ++ bad :: es2).map rawBlock).flatten) pre.length) true =
      ⟨es1.map rawOut, some (.hashMismatch bad.name)⟩ := by
  induction es1 generalizing pre fuel with
  | nil =>
    obtain ⟨fuel, rfl⟩ : ∃ f, fuel = f + 1 := by
      cases fuel with
      | zero => simp at hfuel
      | succ f => exact ⟨f, rfl⟩
    have hsplit : pre ++ (((bad :: es2) : List RawEntry).map rawBlock).flatten =
        pre ++ rawBlock bad ++ (es2.map rawBlock).flatten := by
      simp [List.append_assoc]
    simp only [List.nil_append]
    rw [hsplit, decodeLoop_block true fuel pre _ bad hbb hpre,
      if_pos (by exact ⟨rfl, hbad⟩)]
    simp
  | cons e es' ih =>
    obtain ⟨fuel, rfl⟩ : ∃ f, fuel = f + 1 := by
      cases fuel with
      | zero => simp at hfuel
      | succ f => exact ⟨f, rfl⟩
    have hsplit : pre ++ (((e :: es' ++ bad :: es2) : List RawEntry).map rawBlock).flatten =
        pre ++ rawBlock e ++ ((es' ++ bad :: es2).map rawBlock).flatten := by
      simp [List.append_assoc]
    rw [hsplit, decodeLoop_block true fuel pre _ e (hb e (by simp)) hpre]
    have hnv : ¬ ((true : Bool) = true ∧ ¬ e.digest = sha1 e.payload) := by
      rintro ⟨_, hv2⟩; exact hv2 (hv e (by simp))
    rw [if_neg hnv,
      if_neg (flatten_blocks_ne_nil (es' ++ bad :: es2) (by simp))]
    have hlen : pre.length + (rawBlock e).length = (pre ++ rawBlock e).length := by simp
    rw [hlen,
      ih (pre ++ rawBlock e) fuel (fun x hx => hb x (by simp [hx]))
        (fun x hx => hv x (by simp [hx]))
        (by simp; omega) (by simp at hfuel ⊢; omega)]
    simp

end AssetBundle
namespace AssetBundle

/-! ## Top-level decoding of complete archives -/

theorem totalLen_single (c : Bytes) : totalLen [c] = c.length := by
  simp [totalLen]

theorem decodeChunks_header (v : Bool) (body : Bytes) (h0 : 0 < body.length) :
    decodeChunks [HEAD ++ body] v =
      decodeLoop v (totalLen [HEAD ++ body] + 1)
        (oneChunk (HEAD ++ body) HEAD.length) true := by
  have hlen : (HEAD ++ body).length = 7 + body.length := by simp [HEAD]; omega
  have h1 : readBytes 7 (⟨[HEAD ++ body], 0, 0, []⟩ : DecState) =
      .ok (HEAD, oneChunk (HEAD ++ body) HEAD.length) := by
    show readBytes 7 (oneChunk (HEAD ++ body) 0) = _
    rw [readBytes_one_mid (HEAD ++ body) 0 7 (by omega) (by omega)]
    rw [List.drop_zero, take_exact HEAD body 7 rfl]
    rfl
  simp only [decodeChunks, h1]
  simp

theorem decodeChunks_rawArchive (v : Bool) (es : List RawEntry) (hne : es ≠ [])
    (hb : ∀ e ∈ es, rawBounds e)
    (hv : v = true → ∀ e ∈ es, e.digest = sha1 e.payload) :
    decodeChunks [rawArchive es] v = ⟨es.map rawOut, none⟩ := by
  have hA : rawArchive es = HEAD ++ (es.map rawBlock).flatten := rfl
  have hge := blocks_length_ge es
  have hh : HEAD.length = 7 := rfl
  rw [hA, decodeChunks_header v _ (List.length_pos.mpr (flatten_blocks_ne_nil es hne))]
  rw [decodeLoop_entries_ok v es HEAD _ hne hb hv (by omega)
    (by rw [totalLen_single, List.length_append]; omega)]

theorem decodeChunks_raw_mismatch (es1 : List RawEntry) (bad : RawEntry)
    (es2 : List RawEntry)
    (hb : ∀ e ∈ es1, rawBounds e) (hbb : rawBounds bad)
    (hv : ∀ e ∈ es1, e.digest = sha1 e.payload)
    (hbad : bad.digest ≠ sha1 bad.payload) :
    decodeChunks [rawArchive (es1 ++ bad :: es2)] true =
      ⟨es1.map rawOut, some (.hashMismatch bad.name)⟩ := by
  have hA : rawArchive (es1 ++ bad :: es2) =
      HEAD ++ ((es1 ++ bad :: es2).map rawBlock).flatten := rfl
  have hge := blocks_length_ge (es1 ++ bad :: es2)
  have hl : (es1 ++ bad :: es2).length = es1.length + 1 + es2.length := by simp; omega
  have hh : HEAD.length = 7 := rfl
  rw [hA, decodeChunks_header true _
    (List.length_pos.mpr (flatten_blocks_ne_nil _ (by simp)))]
  rw [decodeLoop_entries_mismatch es1 bad es2 HEAD _ hb hbb hv hbad (by omega)
    (by rw [totalLen_single, List.length_append]; omega)]

end AssetBundle
namespace AssetBundle

/-! ## Truncation strictly inside one entry record -/

theorem decodeLoop_cutBlock (v : Bool) (fuel : Nat) (pre : Bytes) (e : RawEntry) (s : Nat)
    (hb : rawBounds e) (hpre : 0 < pre.length)
    (hs0 : 0 < s) (hs : s < (rawBlock e).length) :
    decodeLoop v (fuel + 1) (oneChunk (pre ++ (rawBlock e).take s) pre.length) true =
      ⟨[], some (if (s = 2 ∧ e.name.length = 0) ∨
          (s = 8 + e.name.length + e.typeb.length ∧ e.payload.length = 0)
        then DecodeError.typeError else DecodeError.unexpectedEof)⟩ := by
  obtain ⟨hnm, htb, hpl, hd⟩ := hb
  have hB := rawBlock_length e
  have hts : ((rawBlock e).take s).length = s := by rw [List.length_take]; omega
  have hct : (pre ++ (rawBlock e).take s).length = pre.length + s := by
    rw [List.length_append, hts]
  have hv1 : u16v (u16le e.name.length) = e.name.length := u16v_u16le _ hnm
  have hv2 : u16v (u16le e.typeb.length) = e.typeb.length := u16v_u16le _ htb
  have hv3 : u32v (u32le e.payload.length) = e.payload.length := u32v_u32le _ hpl
  have hvz : u16v (u16le 0) = 0 := rfl
  have hvz32 : u32v (u32le 0) = 0 := rfl
  have hsl : ∀ k m : Nat, k + m ≤ s →
      ((pre ++ (rawBlock e).take s).drop (pre.length + k)).take m =
        ((rawBlock e).drop k).take m := by
    intro k m hkm
    rw [List.drop_append, List.drop_take, List.take_take, Nat.min_eq_left (by omega)]
  have hslf : ∀ k : Nat, k ≤ s →
      (pre ++ (rawBlock e).take s).drop (pre.length + k) =
        ((rawBlock e).drop k).take (s - k) := by
    intro k hk
    rw [List.drop_append, List.drop_take]
  have hmid : ∀ q k n : Nat, q = pre.length + k → 0 < n → k + n < s →
      readBytes n (oneChunk (pre ++ (rawBlock e).take s) q) =
        .ok (((rawBlock e).drop k).take n,
          oneChunk (pre ++ (rawBlock e).take s) (q + n)) := by
    intro q k n hq hn hks
    subst hq
    rw [readBytes_one_mid (pre ++ (rawBlock e).take s) (pre.length + k) n hn (by omega),
      hsl k n (by omega)]
  have hedge : ∀ q k n : Nat, q = pre.length + k → 0 < n → k + n = s →
      readBytes n (oneChunk (pre ++ (rawBlock e).take s) q) =
        .ok (((rawBlock e).drop k).take n, endChunk (pre ++ (rawBlock e).take s)) := by
    intro q k n hq hn hks
    subst hq
    rw [readBytes_one_edge (pre ++ (rawBlock e).take s) (pre.length + k) n hn (by omega),
      hslf k (by omega), show s - k = n from by omega]
  have heof : ∀ q k n : Nat, q = pre.length + k → k ≤ s → s < k + n →
      readBytes n (oneChunk (pre ++ (rawBlock e).take s) q) = .error .unexpectedEof := by
    intro q k n hq hk hkn
    subst hq
    exact readBytes_one_eof (pre ++ (rawBlock e).take s) (pre.length + k) n
      (by omega) (by omega)
  rcases lt_trichotomy s 2 with h2 | h2 | h2
  · -- truncated inside the name-length field
    have hA1 := heof pre.length 0 2 (by omega) (by omega) (by omega)
    simp only [decodeLoop, hA1, hvz, hvz32, if_true, if_false]
    rw [if_neg (by omega)]
  · -- truncated exactly after the name-length field
    have hB1 : readBytes 2 (oneChunk (pre ++ (rawBlock e).take s) pre.length) =
        .ok (u16le e.name.length, endChunk (pre ++ (rawBlock e).take s)) := by
      have h := hedge pre.length 0 2 (by omega) (by omega) (by omega)
      rw [List.drop_zero, rawBlock_take2] at h
      exact h
    by_cases hn0 : e.name.length = 0
    · -- zero-length name read with the cursor past the only chunk: the
      -- `startChunk === chunk` path dereferences the missing chunk
      have hB2 : readBytes e.name.length (endChunk (pre ++ (rawBlock e).take s)) =
          .error .typeError := by rw [hn0]; exact readBytes_zero_end _
      simp only [decodeLoop, hB1, hv1, hB2]
      rw [if_pos (by omega)]
    · have hB2 : readBytes e.name.length (endChunk (pre ++ (rawBlock e).take s)) =
          .error .unexpectedEof := readBytes_end_eof _ _ (Nat.pos_of_ne_zero hn0)
      simp only [decodeLoop, hB1, hv1, hB2, hvz, hvz32, if_true, if_false]
      rw [if_neg (by omega)]
  -- 2 < s from here on
  · have hC1 : readBytes 2 (oneChunk (pre ++ (rawBlock e).take s) pre.length) =
        .ok (u16le e.name.length, oneChunk (pre ++ (rawBlock e).take s) (pre.length + 2)) := by
      have h := hmid pre.length 0 2 (by omega) (by omega) (by omega)
      rw [List.drop_zero, rawBlock_take2] at h
      exact h
    rcases lt_trichotomy s (2 + e.name.length) with hN | hN | hN
    · -- inside the name
      have hC2 := heof (pre.length + 2) 2 e.name.length rfl (by omega) (by omega)
      simp only [decodeLoop, hC1, hv1, hC2, hvz, hvz32, if_true, if_false]
      rw [if_neg (by omega)]
    · -- exactly after the name
      have hC2 : readBytes e.name.length
          (oneChunk (pre ++ (rawBlock e).take s) (pre.length + 2)) =
          .ok (e.name, endChunk (pre ++ (rawBlock e).take s)) := by
        have h := hedge (pre.length + 2) 2 e.name.length rfl (by omega) (by omega)
        rw [rawBlock_name] at h
        exact h
      have hC3 : readBytes 2 (endChunk (pre ++ (rawBlock e).take s)) =
          .error .unexpectedEof := readBytes_end_eof _ 2 (by omega)
      simp only [decodeLoop, hC1, hv1, hC2, hC3, hvz, hvz32, if_true, if_false]
      rw [if_neg (by omega)]
    -- 2 + name.length < s from here on
    · have hC2 : readBytes e.name.length
          (oneChunk (pre ++ (rawBlock e).take s) (pre.length + 2)) =
          .ok (e.name,
            oneChunk (pre ++ (rawBlock e).take s) (pre.length + 2 + e.name.length)) := by
        by_cases hn0 : e.name.length = 0
        · rw [hn0, readBytes_zero, List.length_eq_zero.mp hn0]
        · have h := hmid (pre.length + 2) 2 e.name.length rfl
            (Nat.pos_of_ne_zero hn0) (by omega)
          rw [rawBlock_name] at h
          exact h
      rcases lt_trichotomy s (4 + e.name.length) with hT | hT | hT
      · -- inside the type-length field
        have hC3 := heof (pre.length + 2 + e.name.length) (2 + e.name.length) 2
          (by omega) (by omega) (by omega)
        simp only [decodeLoop, hC1, hv1, hC2, hC3, hvz, hvz32, if_true, if_false]
        rw [if_neg (by omega)]
      · -- exactly after the type-length field
        have hC3 : readBytes 2
            (oneChunk (pre ++ (rawBlock e).take s) (pre.length + 2 + e.name.length)) =
            .ok (u16le e.typeb.length, endChunk (pre ++ (rawBlock e).take s)) := by
          have h := hedge (pre.length + 2 + e.name.length) (2 + e.name.length) 2
            (by omega) (by omega) (by omega)
          rw [rawBlock_tl] at h
          exact h
        by_cases ht0 : e.typeb.length = 0
        · have hC4 : readBytes 4 (endChunk (pre ++ (rawBlock e).take s)) =
              .error .unexpectedEof := readBytes_end_eof _ 4 (by omega)
          simp only [decodeLoop, hC1, hv1, hC2, hC3, hv2, ht0, hC4, hvz, hvz32, if_true, if_false]
          rw [if_neg (by omega)]
        · have hC4 : readBytes e.typeb.length (endChunk (pre ++ (rawBlock e).take s)) =
              .error .unexpectedEof := readBytes_end_eof _ _ (Nat.pos_of_ne_zero ht0)
          simp only [decodeLoop, hC1, hv1, hC2, hC3, hv2, ht0, hC4, hvz, hvz32, if_true, if_false]
          rw [if_neg (by omega)]
      -- 4 + name.length < s from here on
      · have hC3 : readBytes 2
            (oneChunk (pre ++ (rawBlock e).take s) (pre.length + 2 + e.name.length)) =
            .ok (u16le e.typeb.length,
              oneChunk (pre ++ (rawBlock e).take s) (pre.length + 2 + e.name.length + 2)) := by
          have h := hmid (pre.length + 2 + e.name.length) (2 + e.name.length) 2
            (by omega) (by omega) (by omega)
          rw [rawBlock_tl] at h
          exact h
        rcases lt_trichotomy s (4 + e.name.length + e.typeb.length) with hU | hU | hU
        · -- inside the type (the type is nonempty here)
          have ht0 : e.typeb.length ≠ 0 := by omega
          have hC4 := heof (pre.length + 2 + e.name.length + 2) (4 + e.name.length)
            e.typeb.length (by omega) (by omega) (by omega)
          simp only [decodeLoop, hC1, hv1, hC2, hC3, hv2, ht0, hC4, hvz, hvz32, if_true, if_false]
          rw [if_neg (by omega)]
        · -- exactly after the type (the type is nonempty here)
          have ht0 : e.typeb.length ≠ 0 := by omega
          have hC4 : readBytes e.typeb.length
              (oneChunk (pre ++ (rawBlock e).take s)
                (pre.length + 2 + e.name.length + 2)) =
              .ok (e.typeb, endChunk (pre ++ (rawBlock e).take s)) := by
            have h := hedge (pre.length + 2 + e.name.length + 2) (4 + e.name.length)
              e.typeb.length (by omega) (by omega) (by omega)
            rw [rawBlock_type] at h
            exact h
          have hC5 : readBytes 4 (endChunk (pre ++ (rawBlock e).take s)) =
              .error .unexpectedEof := readBytes_end_eof _ 4 (by omega)
          simp only [decodeLoop, hC1, hv1, hC2, hC3, hv2, ht0, hC4, hC5, hvz, hvz32, if_true, if_false]
          rw [if_neg (by omega)]
        -- 4 + name.length + typeb.length < s from here on
        · have hC4 : (if e.typeb.length = 0 then
              (.ok (octetStream, oneChunk (pre ++ (rawBlock e).take s)
                (pre.length + 2 + e.name.length + 2)) :
                Except DecodeError (Bytes × DecState))
            else readBytes e.typeb.length
              (oneChunk (pre ++ (rawBlock e).take s)
                (pre.length + 2 + e.name.length + 2))) =
              .ok (if e.typeb = [] then octetStream else e.typeb,
                oneChunk (pre ++ (rawBlock e).take s)
                  (pre.length + 2 + e.name.length + 2 + e.typeb.length)) := by
            by_cases ht0 : e.typeb = []
            · simp [ht0]
            · have hl0 : e.typeb.length ≠ 0 := by simpa using ht0
              rw [if_neg hl0, if_neg ht0]
              have h := hmid (pre.length + 2 + e.name.length + 2) (4 + e.name.length)
                e.typeb.length (by omega) (Nat.pos_of_ne_zero hl0) (by omega)
              rw [rawBlock_type] at h
              exact h
          rcases lt_trichotomy s (8 + e.name.length + e.typeb.length) with hV | hV | hV
          · -- inside the payload-length field
            have hC5 := heof (pre.length + 2 + e.name.length + 2 + e.typeb.length)
              (4 + e.name.length + e.typeb.length) 4 (by omega) (by omega) (by omega)
            simp only [decodeLoop, hC1, hv1, hC2, hC3, hv2, hC4, hC5, hvz, hvz32, if_true, if_false]
            rw [if_neg (by omega)]
          · -- exactly after the payload-length field
            have hC5 : readBytes 4
                (oneChunk (pre ++ (rawBlock e).take s)
                  (pre.length + 2 + e.name.length + 2 + e.typeb.length)) =
                .ok (u32le e.payload.length, endChunk (pre ++ (rawBlock e).take s)) := by
              have h := hedge (pre.length + 2 + e.name.length + 2 + e.typeb.length)
                (4 + e.name.length + e.typeb.length) 4 (by omega) (by omega) (by omega)
              rw [rawBlock_sz] at h
              exact h
            by_cases hp0 : e.payload.length = 0
            · -- zero-length payload read with the cursor past the only chunk:
              -- the `startChunk === chunk` path dereferences the missing chunk
              have hC6 : readBytes e.payload.length
                  (endChunk (pre ++ (rawBlock e).take s)) =
                  .error .typeError := by rw [hp0]; exact readBytes_zero_end _
              simp only [decodeLoop, hC1, hv1, hC2, hC3, hv2, hC4, hC5, hv3, hC6]
              rw [if_pos (by omega)]
            · have hC6 : readBytes e.payload.length
                  (endChunk (pre ++ (rawBlock e).take s)) =
                  .error .unexpectedEof := readBytes_end_eof _ _ (Nat.pos_of_ne_zero hp0)
              simp only [decodeLoop, hC1, hv1, hC2, hC3, hv2, hC4, hC5, hv3, hC6, hvz, hvz32, if_true, if_false]
              rw [if_neg (by omega)]
          -- 8 + name.length + typeb.length < s from here on
          · have hC5 : readBytes 4
                (oneChunk (pre ++ (rawBlock e).take s)
                  (pre.length + 2 + e.name.length + 2 + e.typeb.length)) =
                .ok (u32le e.payload.length,
                  oneChunk (pre ++ (rawBlock e).take s)
                    (pre.length + 2 + e.name.length + 2 + e.typeb.length + 4)) := by
              have h := hmid (pre.length + 2 + e.name.length + 2 + e.typeb.length)
                (4 + e.name.length + e.typeb.length) 4 (by omega) (by omega) (by omega)
              rw [rawBlock_sz] at h
              exact h
            rcases lt_trichotomy s (8 + e.name.length + e.typeb.length + e.payload.length)
              with hW | hW | hW
            · -- inside the payload (the payload is nonempty here)
              have hC6 := heof
                (pre.length + 2 + e.name.length + 2 + e.typeb.length + 4)
                (8 + e.name.length + e.typeb.length) e.payload.length
                (by omega) (by omega) (by omega)
              simp only [decodeLoop, hC1, hv1, hC2, hC3, hv2, hC4, hC5, hv3, hC6, hvz, hvz32, if_true, if_false]
              rw [if_neg (by omega)]
            · -- exactly after the payload
              have hC6 : readBytes e.payload.length
                  (oneChunk (pre ++ (rawBlock e).take s)
                    (pre.length + 2 + e.name.length + 2 + e.typeb.length + 4)) =
                  .ok (((rawBlock e).drop (8 + e.name.length + e.typeb.length)).take
                      e.payload.length,
                    endChunk (pre ++ (rawBlock e).take s)) :=
                hedge (pre.length + 2 + e.name.length + 2 + e.typeb.length + 4)
                  (8 + e.name.length + e.typeb.length) e.payload.length
                  (by omega) (by omega) (by omega)
              have hC7 : readBytes 20 (endChunk (pre ++ (rawBlock e).take s)) =
                  .error .unexpectedEof := readBytes_end_eof _ 20 (by omega)
              simp only [decodeLoop, hC1, hv1, hC2, hC3, hv2, hC4, hC5, hv3, hC6, hC7, hvz, hvz32, if_true, if_false]
              rw [if_neg (by omega)]
            · -- inside the digest
              have hC6 : readBytes e.payload.length
                  (oneChunk (pre ++ (rawBlock e).take s)
                    (pre.length + 2 + e.name.length + 2 + e.typeb.length + 4)) =
                  .ok (((rawBlock e).drop (8 + e.name.length + e.typeb.length)).take
                      e.payload.length,
                    oneChunk (pre ++ (rawBlock e).take s)
                      (pre.length + 2 + e.name.length + 2 + e.typeb.length + 4 +
                        e.payload.length)) := by
                by_cases hp0 : e.payload.length = 0
                · rw [hp0, readBytes_zero]
                  simp
                · exact hmid (pre.length + 2 + e.name.length + 2 + e.typeb.length + 4)
                    (8 + e.name.length + e.typeb.length) e.payload.length
                    (by omega) (Nat.pos_of_ne_zero hp0) (by omega)
              have hC7 := heof
                (pre.length + 2 + e.name.length + 2 + e.typeb.length + 4 + e.payload.length)
                (8 + e.name.length + e.typeb.length + e.payload.length) 20
                (by omega) (by omega) (by omega)
              simp only [decodeLoop, hC1, hv1, hC2, hC3, hv2, hC4, hC5, hv3, hC6, hC7, hvz, hvz32, if_true, if_false]
              rw [if_neg (by omega)]

end AssetBundle
namespace AssetBundle

/-! ## Truncated archives -/

theorem decodeLoop_entries_cut (es1 : List RawEntry) (e : RawEntry) (s : Nat)
    (pre : Bytes) (fuel : Nat)
    (hb : ∀ x ∈ es1, rawBounds x) (hbe : rawBounds e)
    (hv : ∀ x ∈ es1, x.digest = sha1 x.payload)
    (hs0 : 0 < s) (hss : s < (rawBlock e).length)
    (hpre : 0 < pre.length) (hfuel : es1.length < fuel) :
    decodeLoop true fuel
        (oneChunk (pre ++ ((es1.map rawBlock).flatten ++ (rawBlock e).take s)) pre.length)
        true =
      ⟨es1.map rawOut, some (if (s = 2 ∧ e.name.length = 0) ∨
          (s = 8 + e.name.length + e.typeb.length ∧ e.payload.length = 0)
        then DecodeError.typeError else DecodeError.unexpectedEof)⟩ := by
  induction es1 generalizing pre fuel with
  | nil =>
    obtain ⟨fuel, rfl⟩ : ∃ f, fuel = f + 1 := by
      cases fuel with
      | zero => simp at hfuel
      | succ f => exact ⟨f, rfl⟩
    simp only [List.map_nil, List.flatten_nil, List.nil_append]
    exact decodeLoop_cutBlock true fuel pre e s hbe hpre hs0 hss
  | cons x es' ih =>
    obtain ⟨fuel, rfl⟩ : ∃ f, fuel = f + 1 := by
      cases fuel with
      | zero => simp at hfuel
      | succ f => exact ⟨f, rfl⟩
    have hsplit : pre ++ (((x :: es').map rawBlock).flatten ++ (rawBlock e).take s) =
        pre ++ rawBlock x ++ ((es'.map rawBlock).flatten ++ (rawBlock e).take s) := by
      simp [List.append_assoc]
    rw [hsplit, decodeLoop_block true fuel pre _ x (hb x (by simp)) hpre]
    have hnv : ¬ ((true : Bool) = true ∧ ¬ x.digest = sha1 x.payload) := by
      rintro ⟨_, hv2⟩; exact hv2 (hv x (by simp))
    have hsufne : (es'.map rawBlock).flatten ++ (rawBlock e).take s ≠ ([] : Bytes) := by
      intro hcon
      rcases List.append_eq_nil.mp hcon with ⟨_, h2⟩
      have hl : ((rawBlock e).take s).length = s := by rw [List.length_take]; omega
      rw [h2] at hl
      simp at hl
      omega
    rw [if_neg hnv, if_neg hsufne]
    have hlen : pre.length + (rawBlock x).length = (pre ++ rawBlock x).length := by simp
    rw [hlen,
      ih (pre ++ rawBlock x) fuel (fun y hy => hb y (by simp [hy]))
        (fun y hy => hv y (by simp [hy]))
        (by simp; omega) (by simp at hfuel ⊢; omega)]
    simp

theorem decodeChunks_truncated_inside (es1 : List RawEntry) (e : RawEntry)
    (es2 : List RawEntry) (s : Nat)
    (hb : ∀ x ∈ es1, rawBounds x) (hbe : rawBounds e)
    (hv : ∀ x ∈ es1, x.digest = sha1 x.payload)
    (hs0 : 0 < s) (hss : s < (rawBlock e).length) :
    decodeChunks [(rawArchive (es1 ++ e :: es2)).take ((rawArchive es1).length + s)] true =
      ⟨es1.map rawOut, some (if (s = 2 ∧ e.name.length = 0) ∨
          (s = 8 + e.name.length + e.typeb.length ∧ e.payload.length = 0)
        then DecodeError.typeError else DecodeError.unexpectedEof)⟩ := by
  have hh : HEAD.length = 7 := rfl
  have hge := blocks_length_ge es1
  have h1 : rawArchive (es1 ++ e :: es2) =
      rawArchive es1 ++ (rawBlock e ++ (es2.map rawBlock).flatten) := by
    simp [rawArchive, List.append_assoc]
  have h2 : (rawArchive (es1 ++ e :: es2)).take ((rawArchive es1).length + s) =
      rawArchive es1 ++ (rawBlock e).take s := by
    rw [h1, List.take_append, List.take_append_of_le_length (by omega)]
  have h3 : rawArchive es1 ++ (rawBlock e).take s =
      HEAD ++ ((es1.map rawBlock).flatten ++ (rawBlock e).take s) := by
    simp [rawArchive, List.append_assoc]
  have hbl : 0 < ((es1.map rawBlock).flatten ++ (rawBlock e).take s : Bytes).length := by
    rw [List.length_append, List.length_take]
    omega
  rw [h2, h3, decodeChunks_header true _ hbl]
  rw [decodeLoop_entries_cut es1 e s HEAD _ hb hbe hv hs0 hss (by omega)
    (by rw [totalLen_single, List.length_append, List.length_append, List.length_take]; omega)]

theorem decodeChunks_truncated_boundary (es1 es2 : List RawEntry) (hne : es1 ≠ [])
    (hb : ∀ x ∈ es1, rawBounds x) (hv : ∀ x ∈ es1, x.digest = sha1 x.payload) :
    decodeChunks [(rawArchive (es1 ++ es2)).take (rawArchive es1).length] true =
      ⟨es1.map rawOut, none⟩ := by
  have h1 : rawArchive (es1 ++ es2) = rawArchive es1 ++ (es2.map rawBlock).flatten := by
    simp [rawArchive, List.append_assoc]
  rw [h1, List.take_left]
  exact decodeChunks_rawArchive true es1 hne hb (fun _ => hv)

theorem decodeChunks_head_only (v : Bool) :
    decodeChunks [HEAD] v = ⟨[], some .unexpectedEof⟩ := by
  have h1 : readBytes 7 (⟨[HEAD], 0, 0, []⟩ : DecState) = .ok (HEAD, endChunk HEAD) := by
    show readBytes 7 (oneChunk HEAD 0) = _
    rw [readBytes_one_edge HEAD 0 7 (by omega) (by simp [HEAD]), List.drop_zero]
  simp only [decodeChunks, h1]
  exact decodeLoop_end_eof v (totalLen [HEAD]) HEAD

end AssetBundle
namespace AssetBundle

/-! ## Encoder -/

theorem resolveEntry_of_resolves (f : AssetInput) (h : entryResolves f = true) :
    resolveEntry f.name f.type f.data = .ok (storedPayload f.data, storedTypeBytes f) := by
  obtain ⟨nm, ty, d⟩ := f
  cases d <;> cases ty <;>
    simp_all [entryResolves, resolveEntry, storedPayload, storedTypeBytes]

theorem resolveEntry_ok_eq (f : AssetInput) (p tb : Bytes)
    (h : resolveEntry f.name f.type f.data = .ok (p, tb)) :
    p = storedPayload f.data ∧ tb = storedTypeBytes f := by
  obtain ⟨nm, ty, d⟩ := f
  cases d <;> cases ty <;>
    simp_all [resolveEntry, storedPayload, storedTypeBytes]

theorem encodeGo_ok (files : List AssetInput) (seen : List Bytes)
    (hres : ∀ f ∈ files, entryResolves f = true)
    (hnd : (files.map AssetInput.name).Nodup)
    (hseen : ∀ f ∈ files, f.name ∉ seen) :
    encodeGo files seen = .ok ((files.map fun f => rawBlock (toRaw f)).flatten) := by
  induction files generalizing seen with
  | nil => rfl
  | cons f fs ih =>
    have hnd' : f.name ∉ fs.map AssetInput.name ∧ (fs.map AssetInput.name).Nodup :=
      List.nodup_cons.mp (by simpa using hnd)
    have hr := resolveEntry_of_resolves f (hres f (by simp))
    have hnotmem : ¬ f.name ∈ seen := hseen f (by simp)
    have hcond : ((sha1 (storedPayload f.data)).length ≠ 20) = False := by
      simp [sha1_length]
    have hrec := ih (f.name :: seen) (fun g hg => hres g (by simp [hg])) hnd'.2 (by
      intro g hg hcon
      rcases List.mem_cons.mp hcon with hgn | hgn
      · exact hnd'.1 (hgn ▸ List.mem_map_of_mem AssetInput.name hg)
      · exact hseen g (by simp [hg]) hgn)
    simp only [encodeGo, hr, hnotmem, hcond, if_false, hrec, List.map_cons,
      List.flatten_cons, toRaw]

theorem encodeAssetBundle_ok (files : List AssetInput)
    (hres : ∀ f ∈ files, entryResolves f = true)
    (hnd : (files.map AssetInput.name).Nodup) :
    encodeAssetBundle files = .ok (rawArchive (files.map toRaw)) := by
  unfold encodeAssetBundle
  rw [encodeGo_ok files [] hres hnd (by simp)]
  simp only [rawArchive, List.map_map]
  rfl

theorem encodeGo_ok_shape (files : List AssetInput) (seen : List Bytes) (out : Bytes)
    (h : encodeGo files seen = .ok out) :
    out = (files.map fun f => rawBlock (toRaw f)).flatten := by
  induction files generalizing seen out with
  | nil =>
    simp only [encodeGo, Except.ok.injEq] at h
    simp [← h]
  | cons f fs ih =>
    simp only [encodeGo] at h
    by_cases hdup : f.name ∈ seen
    · rw [if_pos hdup] at h; simp at h
    · rw [if_neg hdup] at h
      cases hre : resolveEntry f.name f.type f.data with
      | error e => rw [hre] at h; simp at h
      | ok pt =>
        obtain ⟨p, tb⟩ := pt
        have hcond : ((sha1 p).length ≠ 20) = False := by simp [sha1_length]
        cases hgo : encodeGo fs (f.name :: seen) with
        | error e =>
          simp only [hre, hcond, if_false, hgo] at h
          exact (Except.noConfusion h)
        | ok rest =>
          simp only [hre, hcond, if_false, hgo, Except.ok.injEq] at h
          obtain ⟨hp, htb⟩ := resolveEntry_ok_eq f p tb hre
          rw [← h, ih (f.name :: seen) rest hgo, hp, htb]
          simp [toRaw]

theorem encodeAssetBundle_ok_shape (files : List AssetInput) (out : Bytes)
    (h : encodeAssetBundle files = .ok out) :
    out = rawArchive (files.map toRaw) := by
  unfold encodeAssetBundle at h
  cases hgo : encodeGo files [] with
  | error e => rw [hgo] at h; simp at h
  | ok body =>
    rw [hgo] at h
    simp only [Except.ok.injEq] at h
    rw [← h, encodeGo_ok_shape files [] body hgo]
    simp only [rawArchive, List.map_map]
    rfl

theorem encodeGo_dup (es1 : List AssetInput) (f : AssetInput) (es2 : List AssetInput)
    (seen : List Bytes)
    (hres : ∀ g ∈ es1, entryResolves g = true)
    (hnd : (es1.map AssetInput.name).Nodup)
    (hseen : ∀ g ∈ es1, g.name ∉ seen)
    (hdup : f.name ∈ es1.map AssetInput.name ∨ f.name ∈ seen) :
    encodeGo (es1 ++ f :: es2) seen = .error (.duplicateName f.name) := by
  induction es1 generalizing seen with
  | nil =>
    rcases hdup with h | h
    · simp at h
    · simp only [List.nil_append, encodeGo, if_pos h]
  | cons g gs ih =>
    have hnd' : g.name ∉ gs.map AssetInput.name ∧ (gs.map AssetInput.name).Nodup :=
      List.nodup_cons.mp (by simpa using hnd)
    have hr := resolveEntry_of_resolves g (hres g (by simp))
    have hnotmem : ¬ g.name ∈ seen := hseen g (by simp)
    have hcond : ((sha1 (storedPayload g.data)).length ≠ 20) = False := by
      simp [sha1_length]
    have hdup' : f.name ∈ gs.map AssetInput.name ∨ f.name ∈ g.name :: seen := by
      rcases hdup with h | h
      · simp only [List.map_cons, List.mem_cons] at h
        rcases h with h1 | h1
        · exact Or.inr (by simp [h1])
        · exact Or.inl h1
      · exact Or.inr (by simp [h])
    have hrec := ih (g.name :: seen) (fun x hx => hres x (by simp [hx])) hnd'.2 (by
      intro x hx hcon
      rcases List.mem_cons.mp hcon with hxn | hxn
      · exact hnd'.1 (hxn ▸ List.mem_map_of_mem AssetInput.name hx)
      · exact hseen x (by simp [hx]) hxn) hdup'
    simp only [List.cons_append, encodeGo, List.append_eq, hr, hnotmem, hcond, if_false, hrec]

theorem encodeAssetBundle_dup (es1 : List AssetInput) (f : AssetInput)
    (es2 : List AssetInput)
    (hres : ∀ g ∈ es1, entryResolves g = true)
    (hnd : (es1.map AssetInput.name).Nodup)
    (hdup : f.name ∈ es1.map AssetInput.name) :
    encodeAssetBundle (es1 ++ f :: es2) = .error (.duplicateName f.name) := by
  unfold encodeAssetBundle
  rw [encodeGo_dup es1 f es2 [] hres hnd (by simp) (Or.inl hdup)]

end AssetBundle
namespace AssetBundle

/-! ## Bridging facts for the claims -/

theorem norm_octet : normalizeBlobType octetStream = octetStream := by decide

theorem plainData_resolves (f : AssetInput) (h : plainData f.data = true) :
    entryResolves f = true := by
  obtain ⟨nm, ty, d⟩ := f
  cases d <;> cases ty <;> simp_all [plainData, entryResolves]

theorem plainData_payload (d : AssetData) (h : plainData d = true) :
    storedPayload d = suppliedViewBytes d := by
  cases d <;> simp_all [plainData, storedPayload, suppliedViewBytes]

theorem plainData_type (f : AssetInput) (h : plainData f.data = true) :
    storedTypeBytes f = f.type.getD [] := by
  obtain ⟨nm, ty, d⟩ := f
  cases d <;> cases ty <;> simp_all [plainData, storedTypeBytes]

end AssetBundle
namespace AssetBundle

/-! ## Claims -/

set_option maxRecDepth 100000 in
/-- C1, counterexample to the claim as stated: the round trip fails on the
empty entry list.  `encodeAssetBundle []` produces the bare 7-byte header,
and decoding it raises `UnexpectedEndOfInput` instead of yielding a clean
empty sequence, because the decoder checks for end of source only after a
yield, never before the first entry. -/
theorem c1_empty_list_counterexample :
    encodeAssetBundle [] = .ok HEAD ∧
    decodeChunks [HEAD] true = ⟨[], some .unexpectedEof⟩ := by
  exact ⟨by decide, by decide⟩

/-- C1 (amended): for every non-empty list of entries with unique names,
names and media types at most 65535 UTF-8 bytes, media types already in
Blob-normal form (printable ASCII, no uppercase), payloads given as strings,
ArrayBuffers or whole-buffer `Uint8Array` views, and payloads shorter than
2^32 bytes, encoding succeeds and decoding the archive (delivered as one
chunk) yields entries with identical names, identical media types (empty or
omitted decoded as the default `application/octet-stream`) and byte-identical
payloads, in input order, with a clean end of sequence. -/
theorem c1_round_trip (files : List AssetInput)
    (hne : files ≠ [])
    (hnd : (files.map AssetInput.name).Nodup)
    (hshape : ∀ f ∈ files, plainData f.data = true)
    (hnm : ∀ f ∈ files, f.name.length < 65536)
    (hty : ∀ f ∈ files, (f.type.getD []).length < 65536 ∧
      normalizeBlobType (f.type.getD []) = f.type.getD [])
    (hpl : ∀ f ∈ files, (suppliedViewBytes f.data).length < 4294967296) :
    encodeAssetBundle files = .ok (rawArchive (files.map toRaw)) ∧
    decodeChunks [rawArchive (files.map toRaw)] true =
      ⟨files.map fun f =>
        ⟨f.name, if f.type.getD [] = [] then octetStream else f.type.getD [],
          suppliedViewBytes f.data⟩, none⟩ := by
  constructor
  · exact encodeAssetBundle_ok files (fun f hf => plainData_resolves f (hshape f hf)) hnd
  · rw [decodeChunks_rawArchive true (files.map toRaw)
      (by simpa using hne)
      (by
        intro e he
        rcases List.mem_map.mp he with ⟨f, hf, rfl⟩
        refine ⟨by simpa [toRaw] using hnm f hf, ?_, ?_, by simp [toRaw, sha1_length]⟩
        · simpa [toRaw, plainData_type f (hshape f hf)] using (hty f hf).1
        · simpa [toRaw, plainData_payload f.data (hshape f hf)] using hpl f hf)
      (by
        intro _ e he
        rcases List.mem_map.mp he with ⟨f, hf, rfl⟩
        rfl)]
    rw [List.map_map]
    congr 1
    refine List.map_congr_left ?_
    intro f hf
    obtain ⟨hty1, hty2⟩ := hty f hf
    simp only [Function.comp, rawOut, toRaw, plainData_type f (hshape f hf),
      plainData_payload f.data (hshape f hf)]
    by_cases ht : f.type.getD [] = []
    · simp [ht, norm_octet]
    · simp [ht, hty2]

/-- C1 witness: the round trip at the concrete one-entry list
`[{name "a", data "x"}]`. -/
theorem c1_round_trip_witness :
    encodeAssetBundle [⟨[97], none, .str [120]⟩] =
      .ok (rawArchive (([⟨[97], none, .str [120]⟩] : List AssetInput).map toRaw)) ∧
    decodeChunks [rawArchive (([⟨[97], none, .str [120]⟩] :
        List AssetInput).map toRaw)] true =
      ⟨([⟨[97], none, AssetData.str [120]⟩] : List AssetInput).map fun f =>
        (⟨f.name, if f.type.getD [] = [] then octetStream else f.type.getD [],
          suppliedViewBytes f.data⟩ : DecOutput), none⟩ :=
  c1_round_trip [⟨[97], none, .str [120]⟩] (by decide) (by decide) (by decide)
    (by decide) (by decide) (by decide)

set_option maxRecDepth 100000 in
/-- C2, code bug: decoding the same archive bytes with different chunk
splits does not give the same result.  A one-entry archive delivered as a
single chunk decodes cleanly; the identical bytes delivered as chunks of
sizes 3, 4 and 30 crash with a TypeError (the `chunks[chunk]` access in
`readBytes` dereferences a chunk index one past the buffered list when a
read ends exactly at a chunk boundary after spanning two or more chunks). -/
theorem c2_chunking_changes_result :
    decodeChunks [rawArchive [⟨[97], [], [120], sha1 [120]⟩]] true =
      ⟨[⟨[97], octetStream, [120]⟩], none⟩ ∧
    decodeChunks [(rawArchive [⟨[97], [], [120], sha1 [120]⟩]).take 3,
        ((rawArchive [⟨[97], [], [120], sha1 [120]⟩]).drop 3).take 4,
        (rawArchive [⟨[97], [], [120], sha1 [120]⟩]).drop 7] true =
      ⟨[], some .typeError⟩ ∧
    (rawArchive [⟨[97], [], [120], sha1 [120]⟩]).take 3 ++
        (((rawArchive [⟨[97], [], [120], sha1 [120]⟩]).drop 3).take 4 ++
          (rawArchive [⟨[97], [], [120], sha1 [120]⟩]).drop 7) =
      rawArchive [⟨[97], [], [120], sha1 [120]⟩] := by
  exact ⟨by decide, by decide, by decide⟩

set_option maxRecDepth 100000 in
/-- C4, counterexample to the claim as stated: truncating a valid one-entry
archive at offset 7 (exactly after the header, an entry boundary with zero
entries before it) makes decoding fail with `UnexpectedEndOfInput` instead
of ending cleanly. -/
theorem c4_offset7_counterexample :
    (rawArchive [⟨[97], [], [120], sha1 [120]⟩]).take 7 = HEAD ∧
    decodeChunks [(rawArchive [⟨[97], [], [120], sha1 [120]⟩]).take 7] true =
      ⟨[], some .unexpectedEof⟩ := by
  exact ⟨by decide, by decide⟩

/-- C4 (amended): truncating a valid archive strictly inside an entry's
fields fails after yielding the entries fully present before the truncated
one — with `UnexpectedEndOfInput`, except when the cut falls exactly after
the 2-byte name-length field of an empty name or exactly after the 4-byte
payload-size field of an empty payload: there the decoder's next read has
length 0 with the cursor already past the buffered chunk, and the
`startChunk === chunk` path of `readBytes` dereferences the missing chunk,
so decoding crashes with a TypeError instead; truncating exactly at an
entry boundary after at least one entry ends the sequence cleanly with
exactly the preceding entries; truncating at offset 7 (zero entries) fails
with `UnexpectedEndOfInput` rather than ending cleanly. -/
theorem c4_truncation (es1 : List RawEntry) (e : RawEntry) (es2 : List RawEntry) (s : Nat)
    (hb : ∀ x ∈ es1 ++ e :: es2, rawBounds x)
    (hv : ∀ x ∈ es1 ++ e :: es2, x.digest = sha1 x.payload)
    (hs0 : 0 < s) (hss : s < (rawBlock e).length) :
    decodeChunks [(rawArchive (es1 ++ e :: es2)).take ((rawArchive es1).length + s)] true =
      ⟨es1.map rawOut, some (if (s = 2 ∧ e.name.length = 0) ∨
          (s = 8 + e.name.length + e.typeb.length ∧ e.payload.length = 0)
        then DecodeError.typeError else DecodeError.unexpectedEof)⟩ ∧
    decodeChunks [(rawArchive (es1 ++ e :: es2)).take (rawArchive (es1 ++ [e])).length] true =
      ⟨(es1 ++ [e]).map rawOut, none⟩ ∧
    decodeChunks [(rawArchive (es1 ++ e :: es2)).take 7] true =
      ⟨[], some .unexpectedEof⟩ := by
  refine ⟨?_, ?_, ?_⟩
  · exact decodeChunks_truncated_inside es1 e es2 s (fun x hx => hb x (by simp [hx]))
      (hb e (by simp)) (fun x hx => hv x (by simp [hx])) hs0 hss
  · have hsplit : es1 ++ e :: es2 = (es1 ++ [e]) ++ es2 := by simp
    rw [hsplit]
    refine decodeChunks_truncated_boundary (es1 ++ [e]) es2 (by simp) ?_ ?_
    · intro x hx
      rcases List.mem_append.mp hx with h | h
      · exact hb x (by simp [h])
      · simp at h
        subst h
        exact hb x (by simp)
    · intro x hx
      rcases List.mem_append.mp hx with h | h
      · exact hv x (by simp [h])
      · simp at h
        subst h
        exact hv x (by simp)
  · have h7 : (rawArchive (es1 ++ e :: es2)).take 7 = HEAD := by
      rw [show rawArchive (es1 ++ e :: es2) =
        HEAD ++ ((es1 ++ e :: es2).map rawBlock).flatten from rfl]
      rw [List.take_append_of_le_length (by simp [HEAD])]
      rw [show (7 : Nat) = HEAD.length from rfl, List.take_length]
    rw [h7]
    exact decodeChunks_head_only true

set_option maxRecDepth 100000 in
/-- C4 witness: the truncation behaviours at concrete two-entry archives —
one byte into the second entry (`UnexpectedEndOfInput` after the first
entry), at the boundary after the first entry (clean end), at offset 7, and
exactly after the payload-size field of a second entry with an empty
payload (the TypeError crash). -/
theorem c4_truncation_witness :
    decodeChunks [(rawArchive ((([⟨[97], [], [120], sha1 [120]⟩]) : List RawEntry) ++
        (⟨[98], [], [121], sha1 [121]⟩ : RawEntry) :: [])).take
          ((rawArchive ([⟨[97], [], [120], sha1 [120]⟩] : List RawEntry)).length + 1)] true =
      (⟨([⟨[97], [], [120], sha1 [120]⟩] : List RawEntry).map rawOut,
        some .unexpectedEof⟩ : DecodeResult) ∧
    decodeChunks [(rawArchive ((([⟨[97], [], [120], sha1 [120]⟩]) : List RawEntry) ++
        (⟨[98], [], [121], sha1 [121]⟩ : RawEntry) :: [])).take
          (rawArchive ((([⟨[97], [], [120], sha1 [120]⟩]) : List RawEntry) ++
            ([⟨[98], [], [121], sha1 [121]⟩] : List RawEntry))).length] true =
      (⟨((([⟨[97], [], [120], sha1 [120]⟩]) : List RawEntry) ++
          ([⟨[98], [], [121], sha1 [121]⟩] : List RawEntry)).map rawOut, none⟩ :
        DecodeResult) ∧
    decodeChunks [(rawArchive ((([⟨[97], [], [120], sha1 [120]⟩]) : List RawEntry) ++
        (⟨[98], [], [121], sha1 [121]⟩ : RawEntry) :: [])).take 7] true =
      (⟨[], some .unexpectedEof⟩ : DecodeResult) ∧
    decodeChunks [(rawArchive ((([⟨[97], [], [120], sha1 [120]⟩]) : List RawEntry) ++
        (⟨[98], [], [], sha1 []⟩ : RawEntry) :: [])).take
          ((rawArchive ([⟨[97], [], [120], sha1 [120]⟩] : List RawEntry)).length + 9)] true =
      (⟨([⟨[97], [], [120], sha1 [120]⟩] : List RawEntry).map rawOut,
        some .typeError⟩ : DecodeResult) := by
  have h1 := c4_truncation [⟨[97], [], [120], sha1 [120]⟩] ⟨[98], [], [121], sha1 [121]⟩ [] 1
    (by decide) (by decide) (by decide) (by decide)
  have h2 := c4_truncation [⟨[97], [], [120], sha1 [120]⟩] ⟨[98], [], [], sha1 []⟩ [] 9
    (by decide) (by decide) (by decide) (by decide)
  exact ⟨h1.1, h1.2.1, h1.2.2, h2.1⟩

set_option maxRecDepth 100000 in
/-- C5, counterexample to the claim as stated: a source whose 7 bytes differ
from the magic but arrive as two chunks of sizes 3 and 4 fails with the
internal TypeError crash, not with `InvalidHeader`. -/
theorem c5_crash_counterexample :
    (([0, 0, 0] ++ [0, 0, 0, 0] : Bytes)).take 7 ≠ HEAD ∧
    decodeChunks [[0, 0, 0], [0, 0, 0, 0]] true = ⟨[], some .typeError⟩ ∧
    (DecodeError.typeError ≠ DecodeError.invalidHeader) := by
  exact ⟨by decide, by decide, by decide⟩

/-- C5 (amended): for every byte sequence of at least 7 bytes delivered as a
single chunk whose first 7 bytes differ from the magic "BUNDLE1",
`decodeAssetBundleStream` fails with `InvalidHeader` and yields no entries,
regardless of the remaining content. -/
theorem c5_invalid_header (c : Bytes) (v : Bool) (h7 : 7 ≤ c.length)
    (hh : c.take 7 ≠ HEAD) :
    decodeChunks [c] v = ⟨[], some .invalidHeader⟩ := by
  rcases Nat.lt_or_ge 7 c.length with hlt | hge
  · have h1 : readBytes 7 (⟨[c], 0, 0, []⟩ : DecState) = .ok (c.take 7, oneChunk c 7) := by
      show readBytes 7 (oneChunk c 0) = _
      rw [readBytes_one_mid c 0 7 (by omega) (by omega), List.drop_zero]
    simp only [decodeChunks, h1, if_neg hh]
  · have hseq : c.length = 7 := by omega
    have htk : c.take 7 = c := by rw [← hseq]; exact List.take_length c
    have h1 : readBytes 7 (⟨[c], 0, 0, []⟩ : DecState) = .ok (c.take 7, endChunk c) := by
      show readBytes 7 (oneChunk c 0) = _
      rw [readBytes_one_edge c 0 7 (by omega) (by omega), List.drop_zero, htk]
    simp only [decodeChunks, h1, if_neg hh]

/-- C5 witness: ten zero bytes in a single chunk fail with `InvalidHeader`. -/
theorem c5_invalid_header_witness :
    decodeChunks [List.replicate 10 0] true = ⟨[], some .invalidHeader⟩ :=
  c5_invalid_header (List.replicate 10 0) true (by simp) (by decide)

set_option maxRecDepth 100000 in
/-- C6, counterexample to the claim as stated: name uniqueness is not
validated before payload resolution.  With an unsupported payload in the
first entry and a duplicate name in the second, encoding fails with the
payload-resolution error, not with `DuplicateName`. -/
theorem c6_counterexample :
    encodeAssetBundle [⟨[97], none, .unsupported⟩, ⟨[97], none, .str [121]⟩] =
      .error (.unsupportedPayload [97]) ∧
    (EncodeError.unsupportedPayload [97] ≠ EncodeError.duplicateName [97]) := by
  exact ⟨by decide, by decide⟩

/-- C6 (amended): the duplicate check runs per entry, in input order,
interleaved with payload resolution; each entry's own name check precedes its
payload resolution.  Whenever every entry before the first duplicate
resolves, encoding fails with `DuplicateName` carrying the offending name,
and produces no output, whatever follows. -/
theorem c6_duplicate_name (es1 : List AssetInput) (f : AssetInput)
    (es2 : List AssetInput)
    (hres : ∀ g ∈ es1, entryResolves g = true)
    (hnd : (es1.map AssetInput.name).Nodup)
    (hdup : f.name ∈ es1.map AssetInput.name) :
    encodeAssetBundle (es1 ++ f :: es2) = .error (.duplicateName f.name) :=
  encodeAssetBundle_dup es1 f es2 hres hnd hdup

/-- C6 witness: encoding `[{name "a", data "x"}, {name "a", data "y"}]`
fails with `DuplicateName "a"`. -/
theorem c6_duplicate_name_witness :
    encodeAssetBundle ([⟨[97], none, .str [120]⟩] ++ ⟨[97], none, .str [121]⟩ :: []) =
      .error (.duplicateName [97]) :=
  c6_duplicate_name [⟨[97], none, .str [120]⟩] ⟨[97], none, .str [121]⟩ []
    (by decide) (by decide) (by decide)

end AssetBundle
namespace AssetBundle

set_option maxRecDepth 100000 in
/-- C7, counterexample to the claim as stated: for a `Uint8Array` view of 3
bytes at offset 2 over an 8-byte buffer, the encoder stores the whole 8-byte
underlying buffer (with length prefix 8), not the 3 bytes of the view. -/
theorem c7_subview_counterexample :
    encodeAssetBundle [⟨[97], none, .u8 [1, 2, 3, 4, 5, 6, 7, 8] 2 3⟩] =
      .ok (HEAD ++ rawBlock ⟨[97], [], [1, 2, 3, 4, 5, 6, 7, 8],
        sha1 [1, 2, 3, 4, 5, 6, 7, 8]⟩) ∧
    suppliedViewBytes (.u8 [1, 2, 3, 4, 5, 6, 7, 8] 2 3) = [3, 4, 5] ∧
    ([1, 2, 3, 4, 5, 6, 7, 8] : Bytes) ≠ [3, 4, 5] := by
  exact ⟨by decide, by decide, by decide⟩

/-- C7 (amended): for every entry accepted by `encodeAssetBundle`, the bytes
written into the archive are exactly `rawArchive` over the resolved records:
per entry the 32-bit length prefix and payload hold `storedPayload` — the
supplied bytes for a string or `ArrayBuffer`, the bytes a Blob-like handle
materializes to, but for a `Uint8Array` the bytes of its entire underlying
buffer (its view offset and length are ignored), which coincide with the
view's bytes exactly when the view spans the whole buffer. -/
theorem c7_payload_stored (files : List AssetInput) (out : Bytes)
    (h : encodeAssetBundle files = .ok out) :
    out = rawArchive (files.map toRaw) :=
  encodeAssetBundle_ok_shape files out h

set_option maxRecDepth 100000 in
/-- C7 witness: the amended statement instantiated at a whole-buffer
`Uint8Array` entry. -/
theorem c7_payload_stored_witness :
    HEAD ++ rawBlock ⟨[97], [], [1, 2], sha1 [1, 2]⟩ =
      rawArchive (([⟨[97], none, .u8 [1, 2] 0 2⟩] : List AssetInput).map toRaw) :=
  c7_payload_stored [⟨[97], none, .u8 [1, 2] 0 2⟩]
    (HEAD ++ rawBlock ⟨[97], [], [1, 2], sha1 [1, 2]⟩) (by decide)

set_option maxRecDepth 100000 in
/-- C8, counterexample to the claim as stated: an entry whose name is 65536
bytes long is encoded without any error — there is no `FieldTooLarge` check
anywhere in the encoder. -/
theorem c8_oversized_name_accepted :
    (encodeAssetBundle [⟨List.replicate 65536 97, none, .str [120]⟩]).isOk = true ∧
    65535 < (List.replicate 65536 97 : Bytes).length := by
  constructor
  · rw [encodeAssetBundle_ok [⟨List.replicate 65536 97, none, .str [120]⟩]
      (by intro f hf; rw [List.mem_singleton.mp hf]; rfl)
      (List.nodup_singleton _)]
    rfl
  · rw [List.length_replicate]
    omega

/-- C8 (amended): the encoder performs no field-size validation: a name
longer than 65535 UTF-8 bytes is accepted, encoding succeeds, and the 16-bit
length field stores the byte length reduced modulo 65536 while the full name
bytes are written, so the produced archive is malformed. -/
theorem c8_no_size_check (nm d : Bytes) (h : 65535 < nm.length) :
    encodeAssetBundle [⟨nm, none, .str d⟩] =
      .ok (HEAD ++ (u16le (nm.length % 65536) ++ nm ++ u16le 0 ++
        u32le d.length ++ d ++ sha1 d)) := by
  rw [encodeAssetBundle_ok [⟨nm, none, .str d⟩]
    (by intro f hf; rw [List.mem_singleton.mp hf]; rfl)
    (List.nodup_singleton _)]
  simp only [rawArchive, List.map_cons, List.map_nil, List.flatten_cons,
    List.flatten_nil, List.append_nil, toRaw, rawBlock, u16le_mod,
    storedPayload, storedTypeBytes]
  simp [List.append_assoc]

/-- C8 witness: the amended statement at a 65536-byte name. -/
theorem c8_no_size_check_witness :
    65535 < (List.replicate 65536 97 : Bytes).length ∧
    encodeAssetBundle [⟨List.replicate 65536 97, none, .str [120]⟩] =
      .ok (HEAD ++ (u16le ((List.replicate 65536 97 : Bytes).length % 65536) ++
        List.replicate 65536 97 ++ u16le 0 ++
        u32le ([120] : Bytes).length ++ [120] ++ sha1 [120])) :=
  ⟨by rw [List.length_replicate]; omega,
    c8_no_size_check (List.replicate 65536 97) [120] (by rw [List.length_replicate]; omega)⟩

set_option maxRecDepth 100000 in
/-- C9, code bug: for a Blob-like payload with no explicit media type, the
encoder does not write a zero-length type field.  The `type ??= await
data.arrayBuffer()` slip assigns the payload `ArrayBuffer` to the type
variable, so `TextEncoder.encode` coerces it to the 20-byte text
"[object ArrayBuffer]", which is written as the media type. -/
theorem c9_blob_type_clobbered :
    encodeAssetBundle [⟨[97], none, .blob [1, 2, 3]⟩] =
      .ok (HEAD ++ rawBlock ⟨[97], objectArrayBufferText, [1, 2, 3], sha1 [1, 2, 3]⟩) ∧
    objectArrayBufferText ≠ [] ∧
    objectArrayBufferText.length = 20 := by
  exact ⟨by decide, by decide, by decide⟩

/-- C10: the non-streaming wrapper `decodeAssetBundle` passes no options to
the streaming decoder, so `verify` takes its default `true`; for every
well-formed archive containing an entry whose stored digest differs from the
SHA-1 of its payload (all earlier entries verifying), the wrapper fails with
`HashMismatch` naming that entry, and no map is returned. -/
theorem c10_wrapper_verifies (es1 : List RawEntry) (bad : RawEntry)
    (es2 : List RawEntry)
    (hb : ∀ x ∈ es1, rawBounds x) (hbb : rawBounds bad)
    (hv : ∀ x ∈ es1, x.digest = sha1 x.payload)
    (hbad : bad.digest ≠ sha1 bad.payload) :
    decodeAssetBundleMap [rawArchive (es1 ++ bad :: es2)] =
      .error (.hashMismatch bad.name) := by
  simp only [decodeAssetBundleMap,
    decodeChunks_raw_mismatch es1 bad es2 hb hbb hv hbad]

set_option maxRecDepth 100000 in
/-- C10 witness: a one-entry archive whose stored digest is 20 zero bytes
fails verification in the wrapper. -/
theorem c10_wrapper_verifies_witness :
    decodeAssetBundleMap [rawArchive (([] : List RawEntry) ++
        (⟨[97], [], [120], List.replicate 20 0⟩ : RawEntry) :: [])] =
      .error (.hashMismatch [97]) :=
  c10_wrapper_verifies [] ⟨[97], [], [120], List.replicate 20 0⟩ []
    (by simp) (by decide) (by simp) (by decide)

end AssetBundle
